import Mathlib

set_option maxRecDepth 4000

/-!
# Verification of the POD (Provable Object Datatype) core

Shallow embedding of the Go `pod` package: flexible byte decoding
(hex / base64 with or without padding), the typed value model and its
`Check` validation, the canonical hasher (content ID via a lean Poseidon
incremental Merkle tree), JSON marshalling/unmarshalling of values and
entries, and signature verification.

Bytes are modelled as `List Nat` (each element below 256), big integers
as `Int`, strings as Lean `String`.  The trusted cryptographic
primitives (SHA-256, Poseidon, BabyJubjub point/signature decompression
and curve verification) are taken as parameters of the functions that
use them, exactly at the call boundaries where the Go code calls into
`go-iden3-crypto`.
-/

namespace Pod

/-- Bytes as in Go `[]byte`: a list of naturals, each below 256. -/
abbrev GoBytes := List Nat

/-- All elements of a byte list are genuine bytes. -/
def bytesWF (b : GoBytes) : Prop := ∀ x ∈ b, x < 256

instance (b : GoBytes) : Decidable (bytesWF b) := by
  unfold bytesWF; infer_instance

instance {ε α : Type} [DecidableEq ε] [DecidableEq α] :
    DecidableEq (Except ε α)
  | .ok a, .ok b =>
      if h : a = b then .isTrue (by rw [h])
      else .isFalse (by intro hh; cases hh; exact h rfl)
  | .ok _, .error _ => .isFalse (by intro hh; cases hh)
  | .error _, .ok _ => .isFalse (by intro hh; cases hh)
  | .error e, .error f =>
      if h : e = f then .isTrue (by rw [h])
      else .isFalse (by intro hh; cases hh; exact h rfl)

/-! ## Base64 (Go `encoding/base64`)

The Go code uses `base64.StdEncoding` and a no-padding variant of the
standard alphabet (`noPadB64`, matching Rust's `STANDARD_NO_PAD`). -/

/-- The standard base64 alphabet, as in `utils.go` / `verify.go`:
`ABCDEFGHIJKLMNOPQRSTUVWXYZabcdefghijklmnopqrstuvwxyz0123456789+/`. -/
def b64Alphabet : List Char :=
  "ABCDEFGHIJKLMNOPQRSTUVWXYZabcdefghijklmnopqrstuvwxyz0123456789+/".data

/-- Character of a 6-bit group. -/
def sextetChar (n : Nat) : Char := b64Alphabet.getD n '?'

/-- Index of a character in a list (first occurrence). -/
def charIdx : List Char → Char → Option Nat
  | [], _ => none
  | c :: rest, d => if d = c then some 0 else (charIdx rest d).map (· + 1)

/-- 6-bit value of a base64 character, if it is in the alphabet. -/
def charSextet (c : Char) : Option Nat := charIdx b64Alphabet c

/-- Base64 encoding without padding (Go `noPadB64.EncodeToString`). -/
def noPadB64Encode : GoBytes → List Char
  | [] => []
  | [a] => [sextetChar (a / 4), sextetChar (a % 4 * 16)]
  | [a, b] => [sextetChar (a / 4), sextetChar (a % 4 * 16 + b / 16),
               sextetChar (b % 16 * 4)]
  | a :: b :: c :: rest =>
      sextetChar (a / 4) :: sextetChar (a % 4 * 16 + b / 16) ::
      sextetChar (b % 16 * 4 + c / 64) :: sextetChar (c % 64) ::
      noPadB64Encode rest

/-- Decode a run of base64 characters with no padding: full 4-character
blocks, with a final block of 2 or 3 characters allowed (1 character
left over is an error, as in Go).  Leftover low bits of the final
character are discarded, matching Go's non-strict decoder. -/
def b64DecodeChars : List Char → Except String GoBytes
  | [] => .ok []
  | [_] => .error "illegal base64 data"
  | [w, x] =>
      match charSextet w, charSextet x with
      | some w, some x => .ok [w * 4 + x / 16]
      | _, _ => .error "illegal base64 data"
  | [w, x, y] =>
      match charSextet w, charSextet x, charSextet y with
      | some w, some x, some y => .ok [w * 4 + x / 16, x % 16 * 16 + y / 4]
      | _, _, _ => .error "illegal base64 data"
  | w :: x :: y :: z :: rest =>
      match charSextet w, charSextet x, charSextet y, charSextet z,
            b64DecodeChars rest with
      | some w, some x, some y, some z, .ok tail =>
          .ok ((w * 4 + x / 16) :: (x % 16 * 16 + y / 4) ::
               (y % 4 * 64 + z) :: tail)
      | _, _, _, _, _ => .error "illegal base64 data"

/-- Go's base64 decoders skip carriage returns and newlines. -/
def stripNewlines (s : List Char) : List Char :=
  s.filter fun c => c ≠ '\r' ∧ c ≠ '\n'

/-- `noPadB64.DecodeString`: no `=` padding accepted (it is not in the
alphabet, so `b64DecodeChars` rejects it). -/
def noPadB64Decode (s : String) : Except String GoBytes :=
  b64DecodeChars (stripNewlines s.data)

/-- `base64.StdEncoding.DecodeString`: the input (newlines stripped)
must consist of 4-character blocks, the last of which may end in `=` or
`==`; strip the padding and decode. -/
def stdB64Decode (s : String) : Except String GoBytes :=
  let cs := stripNewlines s.data
  if cs.length % 4 ≠ 0 then .error "illegal base64 data"
  else
    let unpadded :=
      if cs.getLast? = some '=' then
        if (cs.dropLast).getLast? = some '=' then cs.dropLast.dropLast
        else cs.dropLast
      else cs
    if unpadded.contains '=' then .error "illegal base64 data"
    else b64DecodeChars unpadded

/-! ## Hex (Go `encoding/hex`) -/

/-- Value of one hex digit (both cases accepted, as in Go). -/
def hexDigitVal (c : Char) : Option Nat :=
  if '0' ≤ c ∧ c ≤ '9' then some (c.toNat - '0'.toNat)
  else if 'a' ≤ c ∧ c ≤ 'f' then some (c.toNat - 'a'.toNat + 10)
  else if 'A' ≤ c ∧ c ≤ 'F' then some (c.toNat - 'A'.toNat + 10)
  else none

/-- `hex.DecodeString`: pairs of hex digits; odd length or a non-digit
is an error. -/
def hexDecodeChars : List Char → Except String GoBytes
  | [] => .ok []
  | [_] => .error "odd length hex string"
  | h :: l :: rest =>
      match hexDigitVal h, hexDigitVal l, hexDecodeChars rest with
      | some h, some l, .ok tail => .ok ((h * 16 + l) :: tail)
      | _, _, _ => .error "invalid hex byte"

def hexDecode (s : String) : Except String GoBytes := hexDecodeChars s.data

/-! ## `DecodeBytes` / `DecodeBase64Bytes` (utils) -/

/-- `DecodeBase64Bytes`: base64 without padding, falling back to
standard (padded) base64. -/
def DecodeBase64Bytes (s : String) : Except String GoBytes :=
  match noPadB64Decode s with
  | .ok b => .ok b
  | .error _ => stdB64Decode s

/-- `DecodeBytes`: a fixed number of bytes encoded as hex (when the
string has exactly double length), or base64 with or without padding;
anything else, or a wrong decoded length, is an error. -/
def DecodeBytes (encodedBytes : String) (expectedBytes : Nat) :
    Except String GoBytes :=
  let decoded : Except String GoBytes :=
    if encodedBytes.data.length = expectedBytes * 2 then
      match hexDecode encodedBytes with
      | .ok b => .ok b
      | .error e => .error ("malformed private key: " ++ e)
    else
      match DecodeBase64Bytes encodedBytes with
      | .ok b => .ok b
      | .error e => .error ("must be hex or base64 string: " ++ e)
  match decoded with
  | .error e => .error e
  | .ok d =>
      if d.length ≠ expectedBytes then .error "wrong number of bytes"
      else .ok d

/-! ## Round trip of the no-padding base64 codec -/

theorem charSextet_sextetChar : ∀ n < 64, charSextet (sextetChar n) = some n := by decide

theorem sextetChar_not_newline : ∀ n < 64, sextetChar n ≠ '\r' ∧ sextetChar n ≠ '\n' := by decide

theorem stripNewlines_noPadB64Encode (b : GoBytes) (h : bytesWF b) :
    stripNewlines (noPadB64Encode b) = noPadB64Encode b := by
  induction b using noPadB64Encode.induct with
  | case1 => rfl
  | case2 a =>
      have ha : a < 256 := h a (by simp)
      simp [noPadB64Encode, stripNewlines, List.filter,
        sextetChar_not_newline (a / 4) (by omega),
        sextetChar_not_newline (a % 4 * 16) (by omega)]
  | case3 a b =>
      have ha : a < 256 := h a (by simp)
      have hb : b < 256 := h b (by simp)
      simp [noPadB64Encode, stripNewlines, List.filter,
        sextetChar_not_newline (a / 4) (by omega),
        sextetChar_not_newline (a % 4 * 16 + b / 16) (by omega),
        sextetChar_not_newline (b % 16 * 4) (by omega)]
  | case4 a b c rest ih =>
      have ha : a < 256 := h a (by simp)
      have hb : b < 256 := h b (by simp)
      have hc : c < 256 := h c (by simp)
      have hr : bytesWF rest := fun x hx => h x (by simp [hx])
      have hrec := ih hr
      have n1 := sextetChar_not_newline (a / 4) (by omega)
      have n2 := sextetChar_not_newline (a % 4 * 16 + b / 16) (by omega)
      have n3 := sextetChar_not_newline (b % 16 * 4 + c / 64) (by omega)
      have n4 := sextetChar_not_newline (c % 64) (by omega)
      simp only [stripNewlines, noPadB64Encode, List.filter_cons] at hrec ⊢
      simp [n1.1, n1.2, n2.1, n2.2, n3.1, n3.2, n4.1, n4.2, hrec]
      intro x hx
      have hfx := List.filter_eq_self.mp hrec x hx
      simpa using hfx

theorem b64DecodeChars_noPadB64Encode (b : GoBytes) (h : bytesWF b) :
    b64DecodeChars (noPadB64Encode b) = .ok b := by
  induction b using noPadB64Encode.induct with
  | case1 => rfl
  | case2 a =>
      have ha : a < 256 := h a (by simp)
      simp only [noPadB64Encode, b64DecodeChars,
        charSextet_sextetChar (a / 4) (by omega),
        charSextet_sextetChar (a % 4 * 16) (by omega)]
      simp only [Except.ok.injEq, List.cons.injEq, and_true]
      omega
  | case3 a b =>
      have ha : a < 256 := h a (by simp)
      have hb : b < 256 := h b (by simp)
      simp only [noPadB64Encode, b64DecodeChars,
        charSextet_sextetChar (a / 4) (by omega),
        charSextet_sextetChar (a % 4 * 16 + b / 16) (by omega),
        charSextet_sextetChar (b % 16 * 4) (by omega)]
      simp only [Except.ok.injEq, List.cons.injEq, and_true]
      constructor <;> omega
  | case4 a b c rest ih =>
      have ha : a < 256 := h a (by simp)
      have hb : b < 256 := h b (by simp)
      have hc : c < 256 := h c (by simp)
      have hr : bytesWF rest := fun x hx => h x (by simp [hx])
      have hrec := ih hr
      cases hrest : noPadB64Encode rest with
      | nil =>
          rw [hrest] at hrec
          have hrnil : rest = [] := by
            have := hrec
            simp only [b64DecodeChars, Except.ok.injEq] at this
            exact this.symm
          subst hrnil
          simp only [noPadB64Encode, hrest, b64DecodeChars,
            charSextet_sextetChar (a / 4) (by omega),
            charSextet_sextetChar (a % 4 * 16 + b / 16) (by omega),
            charSextet_sextetChar (b % 16 * 4 + c / 64) (by omega),
            charSextet_sextetChar (c % 64) (by omega)]
          simp only [Except.ok.injEq, List.cons.injEq, and_true]
          refine ⟨by omega, by omega, by omega⟩
      | cons hd tl =>
          rw [hrest] at hrec
          simp only [noPadB64Encode, hrest, b64DecodeChars,
            charSextet_sextetChar (a / 4) (by omega),
            charSextet_sextetChar (a % 4 * 16 + b / 16) (by omega),
            charSextet_sextetChar (b % 16 * 4 + c / 64) (by omega),
            charSextet_sextetChar (c % 64) (by omega), hrec]
          simp only [Except.ok.injEq, List.cons.injEq, and_true]
          refine ⟨by omega, by omega, by omega⟩

/-- `noPadB64.EncodeToString` as a `String`. -/
def noPadB64EncodeStr (b : GoBytes) : String := ⟨noPadB64Encode b⟩

theorem noPadB64Decode_encode (b : GoBytes) (h : bytesWF b) :
    noPadB64Decode (noPadB64EncodeStr b) = .ok b := by
  show b64DecodeChars (stripNewlines (noPadB64Encode b)) = .ok b
  rw [stripNewlines_noPadB64Encode b h, b64DecodeChars_noPadB64Encode b h]

theorem DecodeBase64Bytes_encode (b : GoBytes) (h : bytesWF b) :
    DecodeBase64Bytes (noPadB64EncodeStr b) = .ok b := by
  unfold DecodeBase64Bytes
  rw [noPadB64Decode_encode b h]

/-! ## Numeral rendering and parsing (Go `math/big` `SetString` / `Text`)

`formatBigIntToString` in the Go code renders out-of-safe-range values
as lowercase hex (`z.Text(16)`, non-negative) or decimal (`z.String()`,
negative); `parseBigIntFromString` reads them back through
`big.Int.SetString` in base 16 (after a `0x`/`0X` prefix) or base 10. -/

/-- Lowercase hex digit characters, as `big.Int.Text(16)` uses. -/
def hexDigitChar (n : Nat) : Char := "0123456789abcdef".data.getD n '?'

/-- Decimal digit characters. -/
def decDigitChar (n : Nat) : Char := "0123456789".data.getD n '?'

/-- Value of a decimal digit character. -/
def decDigitVal (c : Char) : Option Nat :=
  if '0' ≤ c ∧ c ≤ '9' then some (c.toNat - '0'.toNat) else none

/-- Base-16 digits, least significant first (empty for 0); the first
argument is recursion fuel, kept at least the value. -/
def hexDigitsAux : Nat → Nat → List Nat
  | _, 0 => []
  | 0, _ + 1 => []
  | fuel + 1, n + 1 => ((n + 1) % 16) :: hexDigitsAux fuel ((n + 1) / 16)

/-- Base-10 digits, least significant first (empty for 0). -/
def decDigitsAux : Nat → Nat → List Nat
  | _, 0 => []
  | 0, _ + 1 => []
  | fuel + 1, n + 1 => ((n + 1) % 10) :: decDigitsAux fuel ((n + 1) / 10)

/-- Base-16 digits of `n`, least significant first (empty for 0). -/
def natHexDigitsRev (n : Nat) : List Nat := hexDigitsAux n n

/-- Base-10 digits of `n`, least significant first (empty for 0). -/
def natDecDigitsRev (n : Nat) : List Nat := decDigitsAux n n

theorem hexDigitsAux_fuel : ∀ (f1 f2 n : Nat), n ≤ f1 → n ≤ f2 →
    hexDigitsAux f1 n = hexDigitsAux f2 n := by
  intro f1
  induction f1 with
  | zero =>
      intro f2 n h1 _
      interval_cases n
      cases f2 <;> rfl
  | succ f ih =>
      intro f2 n h1 h2
      match n, f2 with
      | 0, f2 => cases f2 <;> rfl
      | m + 1, 0 => omega
      | m + 1, g + 1 =>
          show ((m + 1) % 16) :: hexDigitsAux f ((m + 1) / 16) =
            ((m + 1) % 16) :: hexDigitsAux g ((m + 1) / 16)
          have hd : (m + 1) / 16 ≤ f := by
            have := Nat.div_le_self (m + 1) 16
            omega
          have hd2 : (m + 1) / 16 ≤ g := by
            have := Nat.div_le_self (m + 1) 16
            omega
          rw [ih g ((m + 1) / 16) hd hd2]

theorem decDigitsAux_fuel : ∀ (f1 f2 n : Nat), n ≤ f1 → n ≤ f2 →
    decDigitsAux f1 n = decDigitsAux f2 n := by
  intro f1
  induction f1 with
  | zero =>
      intro f2 n h1 _
      interval_cases n
      cases f2 <;> rfl
  | succ f ih =>
      intro f2 n h1 h2
      match n, f2 with
      | 0, f2 => cases f2 <;> rfl
      | m + 1, 0 => omega
      | m + 1, g + 1 =>
          show ((m + 1) % 10) :: decDigitsAux f ((m + 1) / 10) =
            ((m + 1) % 10) :: decDigitsAux g ((m + 1) / 10)
          have hd : (m + 1) / 10 ≤ f := by
            have := Nat.div_le_self (m + 1) 10
            omega
          have hd2 : (m + 1) / 10 ≤ g := by
            have := Nat.div_le_self (m + 1) 10
            omega
          rw [ih g ((m + 1) / 10) hd hd2]

/-- The defining recurrence of `natHexDigitsRev`. -/
theorem natHexDigitsRev_eq (n : Nat) :
    natHexDigitsRev n =
      if n = 0 then [] else (n % 16) :: natHexDigitsRev (n / 16) := by
  match n with
  | 0 => rfl
  | m + 1 =>
      rw [if_neg (by omega)]
      show ((m + 1) % 16) :: hexDigitsAux m ((m + 1) / 16) = _
      rw [hexDigitsAux_fuel m ((m + 1) / 16) ((m + 1) / 16)
        (by have := Nat.div_le_self (m + 1) 16; omega) (le_refl _)]
      rfl

/-- The defining recurrence of `natDecDigitsRev`. -/
theorem natDecDigitsRev_eq (n : Nat) :
    natDecDigitsRev n =
      if n = 0 then [] else (n % 10) :: natDecDigitsRev (n / 10) := by
  match n with
  | 0 => rfl
  | m + 1 =>
      rw [if_neg (by omega)]
      show ((m + 1) % 10) :: decDigitsAux m ((m + 1) / 10) = _
      rw [decDigitsAux_fuel m ((m + 1) / 10) ((m + 1) / 10)
        (by have := Nat.div_le_self (m + 1) 10; omega) (le_refl _)]
      rfl

/-- `n` rendered in lowercase hex (Go `z.Text(16)` for `n ≥ 0`). -/
def natToHexString (n : Nat) : String :=
  if n = 0 then "0" else ⟨(natHexDigitsRev n).reverse.map hexDigitChar⟩

/-- `n` rendered in decimal. -/
def natToDecString (n : Nat) : String :=
  if n = 0 then "0" else ⟨(natDecDigitsRev n).reverse.map decDigitChar⟩

/-- `z` rendered in decimal with sign (Go `z.String()` /
`strconv.FormatInt`). -/
def intToDecString (z : Int) : String :=
  if z < 0 then "-" ++ natToDecString z.natAbs else natToDecString z.toNat

/-- Digit values of a character run; `none` if any character is not a
digit of the base. -/
def digitsOfChars (digitVal : Char → Option Nat) : List Char → Option (List Nat)
  | [] => some []
  | c :: rest =>
      match digitVal c, digitsOfChars digitVal rest with
      | some d, some ds => some (d :: ds)
      | _, _ => none

/-- Value of a most-significant-first digit list. -/
def natFromDigits (base : Nat) (ds : List Nat) : Nat :=
  ds.foldl (fun a d => a * base + d) 0

/-- Parse an unsigned numeral (non-empty digit run). -/
def parseNatBase (base : Nat) (digitVal : Char → Option Nat)
    (cs : List Char) : Option Nat :=
  if cs.isEmpty then none
  else (digitsOfChars digitVal cs).map (natFromDigits base)

/-- Parse a signed numeral, as `big.Int.SetString` with an explicit
base: an optional `+`/`-` sign followed by a non-empty digit run. -/
def parseIntBase (base : Nat) (digitVal : Char → Option Nat) :
    List Char → Option Int
  | '+' :: rest => (parseNatBase base digitVal rest).map Int.ofNat
  | '-' :: rest => (parseNatBase base digitVal rest).map (fun n => -(n : Int))
  | cs => (parseNatBase base digitVal cs).map Int.ofNat

theorem hexDigitVal_hexDigitChar : ∀ d < 16, hexDigitVal (hexDigitChar d) = some d := by
  decide

theorem decDigitVal_decDigitChar : ∀ d < 10, decDigitVal (decDigitChar d) = some d := by
  decide

theorem digitsOfChars_map_hex (ds : List Nat) (h : ∀ d ∈ ds, d < 16) :
    digitsOfChars hexDigitVal (ds.map hexDigitChar) = some ds := by
  induction ds with
  | nil => rfl
  | cons d rest ih =>
      simp only [List.map_cons, digitsOfChars,
        hexDigitVal_hexDigitChar d (h d (by simp)),
        ih (fun x hx => h x (by simp [hx]))]

theorem digitsOfChars_map_dec (ds : List Nat) (h : ∀ d ∈ ds, d < 10) :
    digitsOfChars decDigitVal (ds.map decDigitChar) = some ds := by
  induction ds with
  | nil => rfl
  | cons d rest ih =>
      simp only [List.map_cons, digitsOfChars,
        decDigitVal_decDigitChar d (h d (by simp)),
        ih (fun x hx => h x (by simp [hx]))]

theorem natFromDigits_append (base : Nat) (l : List Nat) (d : Nat) :
    natFromDigits base (l ++ [d]) = natFromDigits base l * base + d := by
  simp [natFromDigits, List.foldl_append]

theorem natHexDigitsRev_lt (n : Nat) : ∀ d ∈ natHexDigitsRev n, d < 16 := by
  induction n using Nat.strong_induction_on with
  | _ n ih =>
      intro d hd
      rw [natHexDigitsRev_eq] at hd
      by_cases h : n = 0
      · rw [if_pos h] at hd; simp at hd
      · rw [if_neg h] at hd
        rcases List.mem_cons.mp hd with rfl | hd
        · omega
        · exact ih (n / 16) (Nat.div_lt_self (Nat.pos_of_ne_zero h) (by omega)) d hd

theorem natDecDigitsRev_lt (n : Nat) : ∀ d ∈ natDecDigitsRev n, d < 10 := by
  induction n using Nat.strong_induction_on with
  | _ n ih =>
      intro d hd
      rw [natDecDigitsRev_eq] at hd
      by_cases h : n = 0
      · rw [if_pos h] at hd; simp at hd
      · rw [if_neg h] at hd
        rcases List.mem_cons.mp hd with rfl | hd
        · omega
        · exact ih (n / 10) (Nat.div_lt_self (Nat.pos_of_ne_zero h) (by omega)) d hd

theorem natFromDigits_hexDigitsRev (n : Nat) :
    natFromDigits 16 (natHexDigitsRev n).reverse = n := by
  induction n using Nat.strong_induction_on with
  | _ n ih =>
      rw [natHexDigitsRev_eq]
      by_cases h : n = 0
      · rw [if_pos h]; simp [natFromDigits, h]
      · rw [if_neg h, List.reverse_cons, natFromDigits_append,
          ih (n / 16) (Nat.div_lt_self (Nat.pos_of_ne_zero h) (by omega))]
        omega

theorem natFromDigits_decDigitsRev (n : Nat) :
    natFromDigits 10 (natDecDigitsRev n).reverse = n := by
  induction n using Nat.strong_induction_on with
  | _ n ih =>
      rw [natDecDigitsRev_eq]
      by_cases h : n = 0
      · rw [if_pos h]; simp [natFromDigits, h]
      · rw [if_neg h, List.reverse_cons, natFromDigits_append,
          ih (n / 10) (Nat.div_lt_self (Nat.pos_of_ne_zero h) (by omega))]
        omega

theorem parseNatBase_hex_toHex (n : Nat) :
    parseNatBase 16 hexDigitVal (natToHexString n).data = some n := by
  by_cases h : n = 0
  · subst h; decide
  · rw [natToHexString, if_neg h]
    show parseNatBase 16 hexDigitVal ((natHexDigitsRev n).reverse.map hexDigitChar) = some n
    rw [parseNatBase]
    have hne : (natHexDigitsRev n).reverse.map hexDigitChar ≠ [] := by
      simp only [ne_eq, List.map_eq_nil_iff, List.reverse_eq_nil_iff]
      rw [natHexDigitsRev_eq, if_neg h]
      simp
    rw [if_neg (by simpa [List.isEmpty_iff] using hne)]
    rw [digitsOfChars_map_hex _ (fun d hd => natHexDigitsRev_lt n d (List.mem_reverse.mp hd))]
    simp [natFromDigits_hexDigitsRev]

theorem parseNatBase_dec_toDec (n : Nat) :
    parseNatBase 10 decDigitVal (natToDecString n).data = some n := by
  by_cases h : n = 0
  · subst h; decide
  · rw [natToDecString, if_neg h]
    show parseNatBase 10 decDigitVal ((natDecDigitsRev n).reverse.map decDigitChar) = some n
    rw [parseNatBase]
    have hne : (natDecDigitsRev n).reverse.map decDigitChar ≠ [] := by
      simp only [ne_eq, List.map_eq_nil_iff, List.reverse_eq_nil_iff]
      rw [natDecDigitsRev_eq, if_neg h]
      simp
    rw [if_neg (by simpa [List.isEmpty_iff] using hne)]
    rw [digitsOfChars_map_dec _ (fun d hd => natDecDigitsRev_lt n d (List.mem_reverse.mp hd))]
    simp [natFromDigits_decDigitsRev]

/-- `parseBigIntFromString` (value codec): decimal, or hex after a
`0x`/`0X` prefix. -/
def parseBigIntFromString (s : String) : Except String Int :=
  if s.data.take 2 = ['0', 'x'] ∨ s.data.take 2 = ['0', 'X'] then
    match parseIntBase 16 hexDigitVal (s.data.drop 2) with
    | some z => .ok z
    | none => .error ("invalid hex in BigInt string " ++ s)
  else
    match parseIntBase 10 decDigitVal s.data with
    | some z => .ok z
    | none => .error ("invalid decimal in BigInt string " ++ s)

/-- `formatBigIntToString`: out-of-safe-range integers are rendered in
decimal when negative, and as a lowercase `0x` hex literal otherwise. -/
def formatBigIntToString (z : Int) : String :=
  if z < 0 then intToDecString z else "0x" ++ natToHexString z.toNat

theorem parseIntBase_cons_digit (base : Nat) (dv : Char → Option Nat)
    (c : Char) (rest : List Char) (h1 : c ≠ '+') (h2 : c ≠ '-') :
    parseIntBase base dv (c :: rest) =
      (parseNatBase base dv (c :: rest)).map Int.ofNat := by
  simp only [parseIntBase]
  split
  · rename_i heq
    rw [List.cons.injEq] at heq
    exact absurd heq.1 h1
  · rename_i heq
    rw [List.cons.injEq] at heq
    exact absurd heq.1 h2
  · rfl

theorem hexDigitChar_not_sign : ∀ d < 16, hexDigitChar d ≠ '+' ∧ hexDigitChar d ≠ '-' := by
  decide

theorem decDigitChar_not_sign : ∀ d < 10, decDigitChar d ≠ '+' ∧ decDigitChar d ≠ '-' := by
  decide

theorem natToHexString_head (n : Nat) (hn : n ≠ 0) :
    ∃ d < 16, ∃ rest, (natToHexString n).data = hexDigitChar d :: rest := by
  rw [natToHexString, if_neg hn]
  show ∃ d < 16, ∃ rest, (natHexDigitsRev n).reverse.map hexDigitChar = hexDigitChar d :: rest
  have hne : (natHexDigitsRev n).reverse ≠ [] := by
    simp only [ne_eq, List.reverse_eq_nil_iff]
    rw [natHexDigitsRev_eq, if_neg hn]; simp
  cases hds : (natHexDigitsRev n).reverse with
  | nil => exact absurd hds hne
  | cons d rest =>
      refine ⟨d, ?_, rest.map hexDigitChar, by simp⟩
      exact natHexDigitsRev_lt n d (List.mem_reverse.mp (hds ▸ by simp))

theorem parseIntBase16_toHex (n : Nat) :
    parseIntBase 16 hexDigitVal (natToHexString n).data = some n := by
  by_cases hn : n = 0
  · subst hn; decide
  · obtain ⟨d, hd, rest, hds⟩ := natToHexString_head n hn
    rw [hds, parseIntBase_cons_digit 16 hexDigitVal _ _
      (hexDigitChar_not_sign d hd).1 (hexDigitChar_not_sign d hd).2, ← hds,
      parseNatBase_hex_toHex n]
    rfl

theorem parseBigIntFromString_format (z : Int) :
    parseBigIntFromString (formatBigIntToString z) = .ok z := by
  by_cases hz : z < 0
  · rw [formatBigIntToString, if_pos hz]
    have hdata : ("-" ++ natToDecString z.natAbs).data =
        '-' :: (natToDecString z.natAbs).data := rfl
    rw [intToDecString, if_pos hz, parseBigIntFromString, hdata]
    have habs : z.natAbs ≠ 0 := by omega
    have htake : ¬(('-' :: (natToDecString z.natAbs).data).take 2 = ['0', 'x'] ∨
        ('-' :: (natToDecString z.natAbs).data).take 2 = ['0', 'X']) := by
      cases h : (natToDecString z.natAbs).data <;> simp [List.take]
    rw [if_neg htake]
    show (match parseIntBase 10 decDigitVal ('-' :: (natToDecString z.natAbs).data) with
      | some w => Except.ok w
      | none => Except.error _) = Except.ok z
    have : parseIntBase 10 decDigitVal ('-' :: (natToDecString z.natAbs).data) =
        (parseNatBase 10 decDigitVal (natToDecString z.natAbs).data).map
          (fun n => -(n : Int)) := rfl
    rw [this, parseNatBase_dec_toDec z.natAbs]
    show Except.ok (-((z.natAbs : Nat) : Int)) = Except.ok z
    congr 1
    omega
  · push_neg at hz
    rw [formatBigIntToString, if_neg (by omega), parseBigIntFromString]
    have hdata : ("0x" ++ natToHexString z.toNat).data =
        '0' :: 'x' :: (natToHexString z.toNat).data := rfl
    rw [hdata]
    rw [if_pos (by simp [List.take])]
    show (match parseIntBase 16 hexDigitVal
        (('0' :: 'x' :: (natToHexString z.toNat).data).drop 2) with
      | some w => Except.ok w
      | none => Except.error _) = Except.ok z
    rw [List.drop, List.drop, List.drop_zero, parseIntBase16_toHex]
    show Except.ok ((z.toNat : Nat) : Int) = Except.ok z
    congr 1
    omega

/-! ## The POD value model (`value.go`) -/

/-- The BN254 / Baby Jubjub base-field prime (`constants.Q` of
`go-iden3-crypto`): the modulus used by `fieldSafeInt64`. -/
def babyJubJubPrime : Int :=
  21888242871839275222246405745257275088548364400416034343698204186575808495617

/-- Minimum legal POD cryptographic value. -/
def PodCryptographicMin : Int := 0

/-- Maximum legal POD cryptographic value: the decimal literal from the
source, one less than the Baby Jubjub prime. -/
def PodCryptographicMax : Int :=
  21888242871839275222246405745257275088548364400416034343698204186575808495616

/-- Minimum legal POD int value, `-2^63`. -/
def PodIntMin : Int := -9223372036854775808

/-- Maximum legal POD int value, `2^63 - 1`. -/
def PodIntMax : Int := 9223372036854775807

/-- `PodDateMin`, in milliseconds since the Unix epoch. -/
def podDateMinMillis : Int := -8640000000000000

/-- `PodDateMax`, in milliseconds since the Unix epoch. -/
def podDateMaxMillis : Int := 8640000000000000

/-- `time.Time.UnixMilli`: floor division of nanoseconds (Go stores a
non-negative nanosecond remainder, so this is a floor). -/
def millisOfTime (t : Int) : Int := t.fdiv 1000000

/-- `val.Truncate(time.Millisecond)`: floor to a whole millisecond. -/
def truncToMilli (t : Int) : Int := t.fdiv 1000000 * 1000000

/-- The tagged union `PodValue` (final revision, eight kinds).  Fields
irrelevant to a kind are dropped; the unrepresentable Go states
(nil `BigVal`, nil `BytesVal`, unknown `ValueType`) are omitted. -/
inductive PodValue where
  | nullV
  | stringV (s : String)
  | bytesV (b : GoBytes)
  | cryptographicV (n : Int)
  | intV (n : Int)
  | booleanV (b : Bool)
  | eddsaPubkeyV (s : String)
  | dateV (t : Int)
deriving DecidableEq, Repr

/-- `checkNumericBounds` (nil inputs unrepresentable). -/
def checkNumericBounds (namePrefix kind : String)
    (val minValue maxValue : Int) : Except String Unit :=
  if val < minValue then
    .error (namePrefix ++ kind ++ " less than minimum")
  else if maxValue < val then
    .error (namePrefix ++ kind ++ " greater than maximum")
  else .ok ()

/-- `checkTimeBounds`, bounds in nanoseconds (`Before` / `After` compare
instants). -/
def checkTimeBounds (namePrefix : String)
    (val minNs maxNs : Int) : Except String Unit :=
  if val < minNs then
    .error (namePrefix ++ "date less than minimum")
  else if maxNs < val then
    .error (namePrefix ++ "date greater than maximum")
  else .ok ()

/-- `checkWithNamePrefix`: per-kind validation.  `eddsa_pubkey` only
requires the payload to decode to exactly 32 bytes; the bytes are not
decompressed into a curve point here (deliberately, per the comment in
the source). -/
def checkWithNamePrefix (namePrefix : String) : PodValue → Except String Unit
  | .nullV => .ok ()
  | .stringV _ => .ok ()
  | .bytesV _ => .ok ()
  | .cryptographicV n =>
      checkNumericBounds namePrefix "cryptographic" n
        PodCryptographicMin PodCryptographicMax
  | .intV n => checkNumericBounds namePrefix "int" n PodIntMin PodIntMax
  | .booleanV _ => .ok ()
  | .eddsaPubkeyV s =>
      match DecodeBytes s 32 with
      | .ok _ => .ok ()
      | .error e => .error (namePrefix ++ "failed to decode public key: " ++ e)
  | .dateV t =>
      checkTimeBounds namePrefix t
        (podDateMinMillis * 1000000) (podDateMaxMillis * 1000000)

/-- `PodValue.Check()`. -/
def check (p : PodValue) : Except String Unit := checkWithNamePrefix "" p

/-! ## Entry names and entries (`entries.go`) -/

/-- A word character of Go `regexp` `\w`: ASCII letter, digit or
underscore. -/
def isWordChar (c : Char) : Bool :=
  ('A' ≤ c ∧ c ≤ 'Z') ∨ ('a' ≤ c ∧ c ≤ 'z') ∨ ('0' ≤ c ∧ c ≤ '9') ∨ c = '_'

/-- A legal first character of a POD name: ASCII letter or underscore. -/
def isNameStart (c : Char) : Bool :=
  ('A' ≤ c ∧ c ≤ 'Z') ∨ ('a' ≤ c ∧ c ≤ 'z') ∨ c = '_'

/-- The name regex `^[A-Za-z_]\w*$` as a predicate. -/
def podNameOK (name : String) : Bool :=
  match name.data with
  | [] => false
  | c :: rest => isNameStart c && rest.all isWordChar

/-- `CheckPodName`. -/
def CheckPodName (name : String) : Except String Unit :=
  if podNameOK name then .ok ()
  else .error ("invalid POD name " ++ name)

/-- Lexicographic order on character lists (Go `sort.Strings` compares
byte-wise; on UTF-8 encodings byte-wise order coincides with
codepoint-wise order). -/
def charListLe : List Char → List Char → Bool
  | [], _ => true
  | _ :: _, [] => false
  | a :: as, b :: bs =>
      if a < b then true else if b < a then false else charListLe as bs

/-- Byte-wise lexicographic order on strings. -/
def keyLe (a b : String) : Bool := charListLe a.data b.data

/-- Entry order by name, as `sort.Strings` over the map keys. -/
def entryLe (a b : String × PodValue) : Prop := keyLe a.1 b.1 = true

instance : DecidableRel entryLe := fun a b => by
  unfold entryLe; infer_instance

theorem charListLe_total : ∀ u v : List Char,
    charListLe u v = true ∨ charListLe v u = true := by
  intro u
  induction u with
  | nil => intro v; left; rfl
  | cons a as ih =>
      intro v
      cases v with
      | nil => right; rfl
      | cons b bs =>
          by_cases hab : a < b
          · left; simp [charListLe, hab]
          · by_cases hba : b < a
            · right; simp [charListLe, hba, hab]
            · rcases ih bs with h | h
              · left; simp [charListLe, hab, hba, h]
              · right; simp [charListLe, hab, hba, h]

theorem charListLe_trans : ∀ u v w : List Char,
    charListLe u v = true → charListLe v w = true → charListLe u w = true := by
  intro u
  induction u with
  | nil => intro v w _ _; rfl
  | cons a as ih =>
      intro v w huv hvw
      cases v with
      | nil => simp [charListLe] at huv
      | cons b bs =>
          cases w with
          | nil => simp [charListLe] at hvw
          | cons c cs =>
              simp only [charListLe] at huv hvw ⊢
              by_cases hab : a < b <;> by_cases hbc : b < c
              · have hac : a < c := lt_trans hab hbc
                simp [hac]
              · simp only [if_pos hab] at huv
                by_cases hcb : c < b
                · simp only [if_neg hbc, if_pos hcb] at hvw; cases hvw
                · have hbc2 : b = c := le_antisymm (not_lt.mp hcb) (not_lt.mp hbc)
                  subst hbc2
                  simp [hab]
              · simp only [if_neg hab] at huv
                by_cases hba : b < a
                · simp only [if_pos hba] at huv; cases huv
                · have hab2 : a = b := le_antisymm (not_lt.mp hba) (not_lt.mp hab)
                  subst hab2
                  simp [hbc]
              · simp only [if_neg hab] at huv
                simp only [if_neg hbc] at hvw
                by_cases hba : b < a
                · simp only [if_pos hba] at huv; cases huv
                · by_cases hcb : c < b
                  · simp only [if_pos hcb] at hvw; cases hvw
                  · simp only [if_neg hba] at huv
                    simp only [if_neg hcb] at hvw
                    have hab2 : a = b := le_antisymm (not_lt.mp hba) (not_lt.mp hab)
                    subst hab2
                    simp only [if_neg hbc, if_neg hcb]
                    exact ih bs cs huv hvw

theorem charListLe_antisymm : ∀ u v : List Char,
    charListLe u v = true → charListLe v u = true → u = v := by
  intro u
  induction u with
  | nil =>
      intro v _ hvu
      cases v with
      | nil => rfl
      | cons b bs => simp [charListLe] at hvu
  | cons a as ih =>
      intro v huv hvu
      cases v with
      | nil => simp [charListLe] at huv
      | cons b bs =>
          simp only [charListLe] at huv hvu
          by_cases hab : a < b
          · rw [if_neg (lt_asymm hab), if_pos hab] at hvu
            cases hvu
          · by_cases hba : b < a
            · simp only [if_neg hab, if_pos hba] at huv; cases huv
            · have hab2 : a = b := le_antisymm (not_lt.mp hba) (not_lt.mp hab)
              subst hab2
              simp only [if_neg hab, lt_irrefl, if_neg (lt_irrefl a)] at huv hvu
              rw [ih bs huv hvu]

theorem keyLe_antisymm (a b : String) (h1 : keyLe a b = true)
    (h2 : keyLe b a = true) : a = b := by
  cases a with
  | mk da =>
      cases b with
      | mk db =>
          have := charListLe_antisymm da db h1 h2
          rw [this]

/-- `PodEntries`: the Go map modelled as an association list (the map
has no intrinsic order; list order stands in for an iteration order,
and all order-sensitive operations sort by key first, as the Go code
does). -/
abbrev PodEntries := List (String × PodValue)

/-- `PodEntries.Check()`: every name and every value must validate.
(The Go loop follows map iteration order; whether an error is returned
does not depend on the order.) -/
def entriesCheck : PodEntries → Except String Unit
  | [] => .ok ()
  | (n, v) :: rest =>
      match CheckPodName n with
      | .error e => .error e
      | .ok _ =>
          match checkWithNamePrefix (n ++ ": ") v with
          | .error e => .error e
          | .ok _ => entriesCheck rest

/-! ## The canonical hasher (`crypto.go`)

SHA-256 and Poseidon are trusted primitives; they enter as the
`HashModel` parameter below.  `poseidon.Hash` is modelled as total: on
the field elements the hasher feeds it, the Go function never returns
an error. -/

/-- The trusted hash/curve primitives used by the hasher:
`sha31` models `hashBytes` (first 31 bytes of a SHA-256 digest read as
a big-endian integer), `poseidon1`/`poseidon2` model `poseidon.Hash`
on one and two field elements, and `pkDecompress` models
`babyjub.PublicKeyComp.Decompress` (returning the affine pair). -/
structure HashModel where
  sha31 : List Nat → Int
  poseidon1 : Int → Int
  poseidon2 : Int → Int → Int
  pkDecompress : GoBytes → Option (Int × Int)

/-- UTF-8 bytes of one character. -/
def charUTF8 (c : Char) : List Nat :=
  let n := c.toNat
  if n < 128 then [n]
  else if n < 2048 then [192 + n / 64, 128 + n % 64]
  else if n < 65536 then
    [224 + n / 4096, 128 + n / 64 % 64, 128 + n % 64]
  else
    [240 + n / 262144, 128 + n / 4096 % 64, 128 + n / 64 % 64, 128 + n % 64]

/-- UTF-8 bytes of a string (Go `[]byte(s)`). -/
def strBytes (s : String) : List Nat := (s.data.map charUTF8).flatten

/-- Go `int64(...)` wrap-around of an arbitrary integer. -/
def wrapInt64 (n : Int) : Int :=
  (n + 9223372036854775808) % 18446744073709551616 - 9223372036854775808

/-- `fieldSafeInt64`: reduce a signed 64-bit value modulo the field
prime (Go `big.Int.Mod` is Euclidean: the result is non-negative). -/
def fieldSafeInt64 (val : Int) : Int := val % babyJubJubPrime

/-- The fixed hash of the null value (`nullHashHex`). -/
def nullHash : Int :=
  0x1d1d1d1d1d1d1d1d1d1d1d1d1d1d1d1d1d1d1d1d1d1d1d1d1d1d1d1d1d1d1d1d

/-- `PodValue.Hash()`: the per-kind value hash.  Note the `int` kind is
reduced modulo the field prime via `fieldSafeInt64` (after the
`Int64()` wrap), while the `date` kind feeds the raw signed millisecond
count to Poseidon unreduced. -/
def valueHash (m : HashModel) : PodValue → Except String Int
  | .stringV s => .ok (m.sha31 (strBytes s))
  | .booleanV b => .ok (m.poseidon1 (if b then 1 else 0))
  | .intV n => .ok (m.poseidon1 (fieldSafeInt64 (wrapInt64 n)))
  | .dateV t => .ok (m.poseidon1 (millisOfTime t))
  | .bytesV b => .ok (m.sha31 b)
  | .cryptographicV n => .ok (m.poseidon1 n)
  | .eddsaPubkeyV s =>
      match DecodeBytes s 32 with
      | .error e => .error ("failed to decode public key: " ++ e)
      | .ok pkBytes =>
          match m.pkDecompress pkBytes with
          | none => .error "failed to decompress public key"
          | some (pointX, pointY) => .ok (m.poseidon2 pointX pointY)
  | .nullV => .ok nullHash

/-- One collapse pass of the lean Poseidon IMT (the inner `for` loop):
each complete pair is hashed, a final unpaired element passes through
unchanged. -/
def imtLevel (H2 : Int → Int → Int) : List Int → List Int
  | a :: b :: rest => H2 a b :: imtLevel H2 rest
  | l => l

theorem imtLevel_length (H2 : Int → Int → Int) (l : List Int) :
    (imtLevel H2 l).length = (l.length + 1) / 2 := by
  induction l using imtLevel.induct H2 with
  | case1 a b rest ih => simp [imtLevel, ih]; omega
  | case2 l h => cases l with
      | nil => simp [imtLevel]
      | cons a t =>
          cases t with
          | nil => simp [imtLevel]
          | cons b t2 => exact absurd rfl (h a b t2)

/-- The outer `for len(items) > 1` loop. -/
def imtLoop (H2 : Int → Int → Int) (items : List Int) : List Int :=
  if h : 1 < items.length then imtLoop H2 (imtLevel H2 items) else items
termination_by items.length
decreasing_by rw [imtLevel_length]; omega

/-- `leanPoseidonIMT`: error on an empty input; otherwise collapse
until one element remains and return it (`items[0]`; the loop
invariant keeps the list non-empty, so the default never fires). -/
def leanPoseidonIMT (H2 : Int → Int → Int) (inputs : List Int) :
    Except String Int :=
  if inputs.length = 0 then .error "at least one input is required"
  else .ok ((imtLoop H2 inputs).headD 0)

/-- Hashes of the (already sorted) entries: for each entry, the name
hash followed by the value hash. -/
def entryHashes (m : HashModel) : List (String × PodValue) → Except String (List Int)
  | [] => .ok []
  | (k, v) :: rest =>
      match valueHash m v, entryHashes m rest with
      | .ok vh, .ok tail => .ok (m.sha31 (strBytes k) :: vh :: tail)
      | .error e, _ => .error ("error when hashing pod value: " ++ e)
      | _, .error e => .error e

/-- `computeContentID`: sort the entries by name (byte-wise
lexicographic, `sort.Strings`; Lean's `String` order is codepoint
lexicographic, which agrees with byte-wise order on UTF-8), hash each
name and value in order, and fold with the lean Poseidon IMT. -/
def computeContentID (m : HashModel) (data : PodEntries) : Except String Int :=
  match entryHashes m
      (List.insertionSort entryLe data) with
  | .error e => .error e
  | .ok allHashes =>
      match leanPoseidonIMT m.poseidon2 allHashes with
      | .error e => .error ("error when computing poseidon IMT: " ++ e)
      | .ok root => .ok root

/-! ## JSON codec (`value.go` `MarshalJSON` / `UnmarshalJSON`)

JSON documents are modelled at the abstract-syntax level — Go's
`encoding/json` text layer (tokenizing, compact emission with
map keys sorted) is the trusted stdlib boundary.  Equal documents
serialize to equal bytes, so byte equality of emitted JSON is equality
of `Json` values.  Numbers appear only in integral form in this codec,
so the number payload is an `Int` (Go decodes into `float64`; the
rounding of bare literals beyond the safe range is not modelled — every
bare number this codec emits is within the safe range). -/

inductive Json where
  | nullJ
  | boolJ (b : Bool)
  | numJ (n : Int)
  | strJ (s : String)
  | objJ (fields : List (String × Json))
deriving Repr

/-- `fitsInSafeJSRange`: whether the magnitude is at most `2^53 - 1`. -/
def fitsInSafeJSRange (z : Int) : Bool :=
  -9007199254740991 ≤ z ∧ z ≤ 9007199254740991

/-- `PodValue.MarshalJSON`.  `fmtDate` models
`TimeVal.UTC().Format("2006-01-02T15:04:05.000Z")` applied to a
whole-millisecond instant (`Format` truncates the fraction to three
digits, so only `millisOfTime` of the value reaches the layout). -/
def marshalValue (fmtDate : Int → String) : PodValue → Json
  | .nullV => .nullJ
  | .booleanV b => .boolJ b
  | .stringV s => .strJ s
  | .bytesV b => .objJ [("bytes", .strJ (noPadB64EncodeStr b))]
  | .eddsaPubkeyV s => .objJ [("eddsa_pubkey", .strJ s)]
  | .dateV t => .objJ [("date", .strJ (fmtDate (millisOfTime t)))]
  | .cryptographicV n =>
      if fitsInSafeJSRange n then .objJ [("cryptographic", .numJ n)]
      else .objJ [("cryptographic", .strJ (formatBigIntToString n))]
  | .intV n =>
      if fitsInSafeJSRange n then .numJ n
      else .objJ [("int", .strJ (formatBigIntToString n))]

/-- `parseBigIntFromJSON`: a bare number or a decimal / `0x` hex
string.  The Go float64-to-int64 round-trip test on bare numbers is
modelled as a signed 64-bit range check (integral values inside that
range survive the casts; non-integral floats are unrepresentable
here). -/
def parseBigIntFromJSON : Json → Except String Int
  | .numJ n =>
      if n < -9223372036854775808 ∨ 9223372036854775807 < n then
        .error "non-integer float cannot be parsed to bigint"
      else .ok n
  | .strJ s => parseBigIntFromString s
  | _ => .error "invalid numeric encoding"

/-- `strings.HasSuffix(s, "Z")`. -/
def endsWithZ (s : String) : Bool := s.data.getLast? = some 'Z'

/-- Look up a field of a JSON object (first occurrence). -/
def lookupField : List (String × Json) → String → Option Json
  | [], _ => none
  | (k, v) :: rest, key => if k = key then some v else lookupField rest key

/-- The shared payload switch of `PodValue.UnmarshalJSON` (used by both
the single-key tagged form and the legacy `type`/`value` form).
`parseDate` models `time.Parse(time.RFC3339, s)` returning nanoseconds
since the epoch; note the parsed time is stored as-is. -/
def unmarshalTagged (parseDate : String → Option Int)
    (jsonType : String) (jsonValue : Json) : Except String PodValue :=
  match jsonType with
  | "string" =>
      match jsonValue with
      | .strJ s => .ok (.stringV s)
      | _ => .error "invalid string encoding"
  | "boolean" =>
      match jsonValue with
      | .boolJ b => .ok (.booleanV b)
      | _ => .error "invalid boolean encoding"
  | "int" =>
      match parseBigIntFromJSON jsonValue with
      | .ok n => .ok (.intV n)
      | .error e => .error e
  | "cryptographic" =>
      match parseBigIntFromJSON jsonValue with
      | .ok n => .ok (.cryptographicV n)
      | .error e => .error e
  | "bytes" =>
      match jsonValue with
      | .strJ s =>
          match DecodeBase64Bytes s with
          | .ok decoded => .ok (.bytesV decoded)
          | .error e => .error ("invalid base64 for bytes: " ++ e)
      | _ => .error "invalid bytes encoding"
  | "eddsa_pubkey" =>
      match jsonValue with
      | .strJ s => .ok (.eddsaPubkeyV s)
      | _ => .error "invalid eddsa_pubkey encoding"
  | "date" =>
      match jsonValue with
      | .strJ s =>
          if endsWithZ s then
            match parseDate s with
            | some t => .ok (.dateV t)
            | none => .error "invalid date"
          else .error "date must be encoded in UTC"
      | _ => .error "invalid date encoding"
  | "null" =>
      match jsonValue with
      | .nullJ => .ok .nullV
      | _ => .error "invalid null encoding"
  | _ => .error "unknown key in object PodValue"

/-- `PodValue.UnmarshalJSON`: bare null/bool/number/string, the
single-key tagged object, or the two-key legacy `type`/`value` object;
the result must pass `Check()`.  (Go requires the bare-number branch to
survive the float64/int64 casts; see `parseBigIntFromJSON`.  An object
that is not single-key must contain `type` — a string — and `value`;
extra keys are ignored, as in the source.) -/
def unmarshalValue (parseDate : String → Option Int) (j : Json) :
    Except String PodValue :=
  let parsed : Except String PodValue :=
    match j with
    | .nullJ => .ok .nullV
    | .boolJ b => .ok (.booleanV b)
    | .numJ n =>
        if n < -9223372036854775808 ∨ 9223372036854775807 < n then
          .error "got a floating (non-integer) JSON number"
        else .ok (.intV n)
    | .strJ s => .ok (.stringV s)
    | .objJ fields =>
        match fields with
        | [(k, payload)] => unmarshalTagged parseDate k payload
        | _ =>
            match lookupField fields "type", lookupField fields "value" with
            | some (.strJ ty), some payload => unmarshalTagged parseDate ty payload
            | _, _ => .error "invalid PodValue"
  match parsed with
  | .error e => .error e
  | .ok v =>
      match check v with
      | .ok _ => .ok v
      | .error e => .error e

/-- `NewPodDateValue`: bounds-check the input, then truncate to a whole
millisecond (and force UTC, which the model keeps implicit), then
`Check()` the constructed value. -/
def NewPodDateValue (t : Int) : Except String PodValue :=
  match checkTimeBounds "" t
      (podDateMinMillis * 1000000) (podDateMaxMillis * 1000000) with
  | .error e => .error e
  | .ok _ =>
      let millisTime := truncToMilli t
      match check (.dateV millisTime) with
      | .ok _ => .ok (.dateV millisTime)
      | .error e => .error e

/-! ## Entries and Pod codec (`entries.go`, `pod.go`) -/

/-- `json.Marshal` of the entries map: keys sorted, each value
marshalled canonically. -/
def marshalEntries (fmtDate : Int → String) (entries : PodEntries) : Json :=
  .objJ ((List.insertionSort entryLe entries).map
    fun e => (e.1, marshalValue fmtDate e.2))

/-- Decode each field of an entries object, in document order.
(Go decodes into a map, where a duplicate key would overwrite; the
documents in scope have no duplicate keys.) -/
def unmarshalEntriesFields (parseDate : String → Option Int) :
    List (String × Json) → Except String PodEntries
  | [] => .ok []
  | (k, j) :: rest =>
      match unmarshalValue parseDate j, unmarshalEntriesFields parseDate rest with
      | .ok v, .ok tail => .ok ((k, v) :: tail)
      | .error e, _ => .error e
      | _, .error e => .error e

/-- `PodEntries.UnmarshalJSON`: default object decoding followed by
`Check()`. -/
def unmarshalEntries (parseDate : String → Option Int) (j : Json) :
    Except String PodEntries :=
  match j with
  | .objJ fields =>
      match unmarshalEntriesFields parseDate fields with
      | .error e => .error e
      | .ok entries =>
          match entriesCheck entries with
          | .ok _ => .ok entries
          | .error e => .error e
  | _ => .error "cannot unmarshal into PodEntries"

/-- The `Pod` aggregate. -/
structure Pod where
  entries : PodEntries
  signature : String
  signerPublicKey : String
deriving DecidableEq, Repr

/-- `json.Marshal` of a `Pod`: struct fields in declaration order. -/
def marshalPod (fmtDate : Int → String) (p : Pod) : Json :=
  .objJ [("entries", marshalEntries fmtDate p.entries),
         ("signature", .strJ p.signature),
         ("signerPublicKey", .strJ p.signerPublicKey)]

/-- Modelled from the spec: `Pod` JSON unmarshalling.  The final Go
revision overrides `Pod.UnmarshalJSON` to reject JSON without the POD
wire shape (see `TestBadJSONPod`), but that override is not among the
source snapshots; per the spec wire format, a POD document is an
object carrying `entries`, `signature` and `signerPublicKey`. -/
def unmarshalPod (parseDate : String → Option Int) (j : Json) :
    Except String Pod :=
  match j with
  | .objJ fields =>
      match lookupField fields "entries", lookupField fields "signature",
            lookupField fields "signerPublicKey" with
      | some ej, some (.strJ sig), some (.strJ pk) =>
          match unmarshalEntries parseDate ej with
          | .ok entries => .ok ⟨entries, sig, pk⟩
          | .error e => .error e
      | _, _, _ => .error "not a POD document"
  | _ => .error "not a POD document"

/-! ## Signature verification (`verify.go`, final revision) and signing -/

/-- Outcome of `babyjub.PublicKey.VerifyPoseidon`: success, the
sentinel `ErrVerifyPoseidonFailed`, or any other error. -/
inductive CurveOutcome where
  | verified
  | failed
  | errOther (msg : String)
deriving DecidableEq, Repr

/-- `Pod.Verify`: decode the signature (64 bytes) and public key
(32 bytes) leniently, recompute the content ID, decompress both curve
objects, then run curve verification; `ErrVerifyPoseidonFailed` is a
`(false, nil)` result, every earlier failure and any other
verification error is `(false, err)`.  `sigDecompress` models
`babyjub.SignatureComp.Decompress`, `m.pkDecompress` models
`babyjub.PublicKeyComp.Decompress`, and `curveVerify` models
`VerifyPoseidon`. -/
def verifyPod {σ : Type}
    (m : HashModel)
    (sigDecompress : GoBytes → Option σ)
    (curveVerify : Int → σ → Int × Int → CurveOutcome)
    (p : Pod) : Bool × Option String :=
  match DecodeBytes p.signature 64 with
  | .error e => (false, some ("failed to decode signature: " ++ e))
  | .ok signatureBytes =>
      if signatureBytes.length ≠ 64 then
        (false, some "failed to decode signature")
      else
        match DecodeBytes p.signerPublicKey 32 with
        | .error e => (false, some ("failed to decode signer public key: " ++ e))
        | .ok publicKeyBytes =>
            if publicKeyBytes.length ≠ 32 then
              (false, some "failed to decode signer public key")
            else
              match computeContentID m p.entries with
              | .error e => (false, some ("failed computing content ID: " ++ e))
              | .ok contentID =>
                  match sigDecompress signatureBytes with
                  | none => (false, some "failed to decompress signature")
                  | some signature =>
                      match m.pkDecompress publicKeyBytes with
                      | none => (false, some "failed to decompress public key")
                      | some publicKey =>
                          match curveVerify contentID signature publicKey with
                          | .verified => (true, none)
                          | .failed => (false, none)
                          | .errOther e =>
                              (false, some ("failed to verify signature: " ++ e))

/-- Modelled from the spec: `CreatePod` private-key parsing.  The Go
revision the tests exercise parses the key with the flexible 32-byte
decoder `DecodeBytes` (which is among the sources) and fails with a
"failed to parse private key" error (`TestCreateGoPod`, `TestSigner`);
that revision of `create.go` itself is not among the source snapshots.
Signing (`SignPoseidon`, public-key derivation, compression) enters as
the `sign` / `derivePub` parameters; both outputs are emitted in
unpadded base64. -/
def createPod (m : HashModel)
    (sign : GoBytes → Int → GoBytes)
    (derivePub : GoBytes → GoBytes)
    (privateKey : String) (entries : PodEntries) : Except String Pod :=
  match DecodeBytes privateKey 32 with
  | .error e => .error ("failed to parse private key: " ++ e)
  | .ok keyBytes =>
      match computeContentID m entries with
      | .error e => .error ("failed computing content ID: " ++ e)
      | .ok contentID =>
          .ok ⟨entries, noPadB64EncodeStr (sign keyBytes contentID),
               noPadB64EncodeStr (derivePub keyBytes)⟩

/-! ## A concrete model of `time.Parse(time.RFC3339, ...)` on UTC inputs -/

/-- Leap year (proleptic Gregorian, as Go's calendar). -/
def isLeapYear (y : Nat) : Bool := y % 4 = 0 ∧ (y % 100 ≠ 0 ∨ y % 400 = 0)

/-- Days in a month, as Go's parser range-checks the day field. -/
def daysInMonth (y mo : Nat) : Nat :=
  if mo = 2 then (if isLeapYear y then 29 else 28)
  else if mo = 4 ∨ mo = 6 ∨ mo = 9 ∨ mo = 11 then 30
  else 31

/-- Days from 1970-01-01 to the civil date `y-mo-d` (standard civil
calendar arithmetic, as in Go's `time` package). -/
def daysFromCivil (y : Int) (mo d : Nat) : Int :=
  let y2 : Int := if mo ≤ 2 then y - 1 else y
  let era : Int := y2.fdiv 400
  let yoe : Int := y2 - era * 400
  let mp : Int := (mo : Int) + (if 2 < mo then -3 else 9)
  let doy : Int := (153 * mp + 2).fdiv 5 + (d : Int) - 1
  let doe : Int := yoe * 365 + yoe.fdiv 4 - yoe.fdiv 100 + doy
  era * 146097 + doe - 719468

/-- Two decimal digit characters as a number. -/
def twoDigits (a b : Char) : Option Nat :=
  match decDigitVal a, decDigitVal b with
  | some x, some y => some (x * 10 + y)
  | _, _ => none

/-- A fractional-second field (1-9 digits), scaled to nanoseconds. -/
def fracNanos (cs : List Char) : Option Nat :=
  if cs.length = 0 ∨ 9 < cs.length then none
  else (digitsOfChars decDigitVal cs).map
    fun ds => natFromDigits 10 ds * 10 ^ (9 - cs.length)

/-- Modelled from Go's documented `time.Parse` behaviour with the
`time.RFC3339` layout on UTC (`Z`-suffixed) input: fixed-width date
and clock fields, range-checked, plus an optional fractional-second
field which `Parse` accepts even though the layout has none — and
keeps at full nanosecond precision.  Returns nanoseconds since the
epoch.  Numeric-offset forms and years outside four digits are not
modelled; the code paths proved below only feed `Z`-suffixed
four-digit-year strings. -/
def goParseRFC3339 (s : String) : Option Int :=
  match s.data with
  | y1 :: y2 :: y3 :: y4 :: '-' :: m1 :: m2 :: '-' :: d1 :: d2 :: 'T' ::
    h1 :: h2 :: ':' :: mi1 :: mi2 :: ':' :: s1 :: s2 :: rest =>
      match twoDigits y1 y2, twoDigits y3 y4, twoDigits m1 m2,
            twoDigits d1 d2, twoDigits h1 h2, twoDigits mi1 mi2,
            twoDigits s1 s2 with
      | some yhi, some ylo, some mo, some d, some hh, some mi, some ss =>
          let y : Nat := yhi * 100 + ylo
          let nanosFrac : Option Nat :=
            match rest with
            | ['Z'] => some 0
            | '.' :: fracRest =>
                if fracRest.getLast? = some 'Z' then fracNanos fracRest.dropLast
                else none
            | _ => none
          match nanosFrac with
          | none => none
          | some fn =>
              if 1 ≤ y ∧ 1 ≤ mo ∧ mo ≤ 12 ∧ 1 ≤ d ∧ d ≤ daysInMonth y mo ∧
                 hh ≤ 23 ∧ mi ≤ 59 ∧ ss ≤ 59 then
                some ((((daysFromCivil (y : Int) mo d * 24 + hh) * 60 + mi)
                  * 60 + ss) * 1000000000 + fn)
              else none
      | _, _, _, _, _, _, _ => none
  | _ => none

/-! ## Helper lemmas about the IMT loop and `DecodeBytes` -/

theorem imtLoop_pair (H2 : Int → Int → Int) (a b : Int) :
    imtLoop H2 [a, b] = [H2 a b] := by
  rw [imtLoop]
  simp [imtLevel]
  rw [imtLoop]
  simp

theorem leanPoseidonIMT_pair (H2 : Int → Int → Int) (a b : Int) :
    leanPoseidonIMT H2 [a, b] = .ok (H2 a b) := by
  rw [leanPoseidonIMT]
  simp [imtLoop_pair]

/-- Every successful `DecodeBytes` has the expected length and came
from one of the three accepted decoders. -/
theorem DecodeBytes_ok (s : String) (n : Nat) (b : GoBytes)
    (h : DecodeBytes s n = .ok b) :
    b.length = n ∧ (hexDecode s = .ok b ∨ noPadB64Decode s = .ok b ∨
      stdB64Decode s = .ok b) := by
  unfold DecodeBytes at h
  by_cases hlen : s.data.length = n * 2
  · rw [if_pos hlen] at h
    cases hhex : hexDecode s with
    | error e => rw [hhex] at h; cases h
    | ok d =>
        rw [hhex] at h
        simp only at h
        by_cases hd : d.length ≠ n
        · rw [if_pos hd] at h; cases h
        · rw [if_neg hd] at h
          cases h
          push_neg at hd
          exact ⟨hd, Or.inl rfl⟩
  · rw [if_neg hlen] at h
    unfold DecodeBase64Bytes at h
    cases hnp : noPadB64Decode s with
    | ok d =>
        rw [hnp] at h
        simp only at h
        by_cases hd : d.length ≠ n
        · rw [if_pos hd] at h; cases h
        · rw [if_neg hd] at h
          cases h
          push_neg at hd
          exact ⟨hd, Or.inr (Or.inl rfl)⟩
    | error e =>
        rw [hnp] at h
        cases hstd : stdB64Decode s with
        | error e2 => rw [hstd] at h; cases h
        | ok d =>
            rw [hstd] at h
            simp only at h
            by_cases hd : d.length ≠ n
            · rw [if_pos hd] at h; cases h
            · rw [if_neg hd] at h
              cases h
              push_neg at hd
              exact ⟨hd, Or.inr (Or.inr rfl)⟩

/-! ## C6 — cryptographic `Check()` bounds -/

/-- C6, counterexample.  The claim names
`P = 21888242871839275222246405745257275088548364400416034343698204186575808495616`
and asserts that the value `P` fails `Check()`; but that number is the
source's `PodCryptographicMax` itself (one less than the Baby Jubjub
prime), and `Check()` accepts it. -/
theorem C6_counterexample :
    check (.cryptographicV
      21888242871839275222246405745257275088548364400416034343698204186575808495616) =
      .ok () := by decide

/-- C6, amended: `Check()` on a cryptographic value accepts exactly
`[0, P-1]` where `P` is the Baby Jubjub prime
21888242871839275222246405745257275088548364400416034343698204186575808495617:
`0` and `P-1` validate, `P` and `-1` fail. -/
theorem C6_amended :
    check (.cryptographicV 0) = .ok () ∧
    check (.cryptographicV (babyJubJubPrime - 1)) = .ok () ∧
    (check (.cryptographicV babyJubJubPrime)).isOk = false ∧
    (check (.cryptographicV (-1))).isOk = false ∧
    PodCryptographicMax = babyJubJubPrime - 1 := by decide

/-! ## C7 — marshalling of `int` and `cryptographic` values -/

/-- C7, counterexample.  The claim asserts both `int` and
`cryptographic` values within the safe range marshal to a bare JSON
number; but a safe-range cryptographic value marshals to the tagged
object `{"cryptographic": <number>}` (a JSON object, not a bare
number), as in the repository's own test vectors
(`{"cryptographic":1234567890}` in pod_test.go). -/
theorem C7_counterexample :
    fitsInSafeJSRange 1234567890 = true ∧
    marshalValue (fun _ => "") (.cryptographicV 1234567890) =
      .objJ [("cryptographic", .numJ 1234567890)] := by
  constructor
  · decide
  · rfl

/-- C7, amended: an `int` value marshals to a bare JSON number exactly
when its magnitude is within `2^53 - 1`, and otherwise to
`{"int": "<string>"}`; a `cryptographic` value always marshals to the
tagged object `{"cryptographic": ...}`, whose payload is a bare number
within the safe range and a string beyond it.  The out-of-range string
is a lowercase `0x` hex literal for non-negative values and a decimal
literal for negative values, and at the boundary `2^53 - 1` (as int)
marshals to a bare number while `2^53` marshals to
`{"int":"0x20000000000000"}`. -/
theorem C7_amended (fmtDate : Int → String) (n : Int) :
    (fitsInSafeJSRange n = true →
      marshalValue fmtDate (.intV n) = .numJ n ∧
      marshalValue fmtDate (.cryptographicV n) =
        .objJ [("cryptographic", .numJ n)]) ∧
    (fitsInSafeJSRange n = false →
      marshalValue fmtDate (.intV n) =
        .objJ [("int", .strJ (formatBigIntToString n))] ∧
      marshalValue fmtDate (.cryptographicV n) =
        .objJ [("cryptographic", .strJ (formatBigIntToString n))] ∧
      (0 ≤ n → formatBigIntToString n = "0x" ++ natToHexString n.toNat) ∧
      (n < 0 → formatBigIntToString n = intToDecString n)) ∧
    marshalValue fmtDate (.intV 9007199254740991) = .numJ 9007199254740991 ∧
    marshalValue fmtDate (.intV 9007199254740992) =
      .objJ [("int", .strJ "0x20000000000000")] := by
  refine ⟨fun hf => ?_, fun hf => ?_, ?_, ?_⟩
  · constructor <;> simp [marshalValue, hf]
  · refine ⟨by simp [marshalValue, hf], by simp [marshalValue, hf], fun hn => ?_, fun hn => ?_⟩
    · rw [formatBigIntToString, if_neg (by omega)]
    · rw [formatBigIntToString, if_pos hn]
  · have : fitsInSafeJSRange 9007199254740991 = true := by decide
    simp [marshalValue, this]
  · have hf : fitsInSafeJSRange 9007199254740992 = false := by decide
    simp only [marshalValue, hf, Bool.false_eq_true, if_false]
    rfl

/-- C7, witness for the amended theorem at the boundary input `2^53`. -/
theorem C7_witness :
    marshalValue (fun _ => "") (.intV 9007199254740992) =
      .objJ [("int", .strJ "0x20000000000000")] ∧
    marshalValue (fun _ => "") (.cryptographicV 9007199254740992) =
      .objJ [("cryptographic", .strJ "0x20000000000000")] := by
  have h := C7_amended (fun _ => "") 9007199254740992
  have h2 := h.2.1 (by decide)
  refine ⟨h.2.2.2, ?_⟩
  rw [h2.2.1]
  rw [h2.2.2.1 (by decide)]
  rfl

/-! ## C2 — entries with an illegal name -/

/-- C2: for the entries `{"bad name": null}` (embedded space), the
claim — mirrored by the repository's own test `TestIllegalPodEntries` —
demands that `Check()`, JSON unmarshalling AND `computeContentID` all
fail.  `Check()` and unmarshalling do fail, but `computeContentID`
hashes names without validating them (it calls only `hashString` on
each key and `Hash()` on each value), so it returns a content ID with
no error, for every choice of hash primitives: the code contradicts
its own test. -/
theorem C2_bad_name_behavior :
    (entriesCheck [("bad name", .nullV)]).isOk = false ∧
    (unmarshalEntries goParseRFC3339
      (.objJ [("bad name", .nullJ)])).isOk = false ∧
    ∀ m : HashModel,
      computeContentID m [("bad name", .nullV)] =
        .ok (m.poseidon2 (m.sha31 (strBytes "bad name")) nullHash) := by
  refine ⟨by decide, by decide, fun m => ?_⟩
  unfold computeContentID
  rw [show List.insertionSort entryLe [("bad name", .nullV)] =
      [("bad name", .nullV)] from rfl]
  rw [show entryHashes m [("bad name", PodValue.nullV)] =
      .ok [m.sha31 (strBytes "bad name"), nullHash] from rfl]
  simp [leanPoseidonIMT_pair]

/-! ## C5 — the lean Poseidon IMT -/

/-- C5: `leanPoseidonIMT` errors exactly on the empty sequence; a
singleton is returned unchanged; and on two or more elements the
result is that of the sequence collapsed one level, where a collapse
level (`imtLevel`) hashes each complete pair and passes a final
unpaired element through unchanged with no padding. -/
theorem C5_leanPoseidonIMT (H2 : Int → Int → Int) :
    (∀ inputs : List Int,
      ((leanPoseidonIMT H2 inputs).isOk = false ↔ inputs = [])) ∧
    (∀ x : Int, leanPoseidonIMT H2 [x] = .ok x) ∧
    (∀ inputs : List Int, 2 ≤ inputs.length →
      leanPoseidonIMT H2 inputs = leanPoseidonIMT H2 (imtLevel H2 inputs)) ∧
    (∀ (a b : Int) (rest : List Int),
      imtLevel H2 (a :: b :: rest) = H2 a b :: imtLevel H2 rest) ∧
    (∀ x : Int, imtLevel H2 [x] = [x]) ∧
    imtLevel H2 [] = [] := by
  refine ⟨fun inputs => ?_, fun x => ?_, fun inputs h2 => ?_,
    fun a b rest => rfl, fun x => rfl, rfl⟩
  · unfold leanPoseidonIMT
    by_cases h : inputs.length = 0
    · rw [if_pos h]
      exact ⟨fun _ => List.length_eq_zero.mp h, fun _ => rfl⟩
    · rw [if_neg h]
      simp only [Except.isOk, Except.toBool]
      constructor
      · intro hh; cases hh
      · intro hh; exact absurd (by rw [hh]; rfl) h
  · unfold leanPoseidonIMT
    rw [if_neg (by simp)]
    rw [imtLoop]
    simp
  · unfold leanPoseidonIMT
    rw [if_neg (by omega)]
    rw [if_neg (by rw [imtLevel_length]; omega)]
    rw [imtLoop]
    rw [dif_pos (by omega)]

/-- C5, witness: the theorem applied to concrete inputs. -/
theorem C5_witness :
    leanPoseidonIMT (fun a b => a + b) [1, 2, 3] =
      leanPoseidonIMT (fun a b => a + b) [3, 3] ∧
    leanPoseidonIMT (fun a b => a + b) [7] = .ok 7 ∧
    (leanPoseidonIMT (fun a b => a + b) ([] : List Int)).isOk = false := by
  have h := C5_leanPoseidonIMT (fun a b => a + b)
  refine ⟨?_, h.2.1 7, (h.1 []).mpr rfl⟩
  have h3 := h.2.2.1 [1, 2, 3] (by decide)
  rw [h3]
  rfl

/-! ## C10 — a pubkey value that validates but cannot be hashed -/

/-- C10: an `eddsa_pubkey` value whose payload decodes to 32 bytes
passes `Check()` — which never attempts curve-point decompression —
while `Hash()` decompresses and fails whenever the 32 bytes are not a
valid compressed point; such entries then also fail content-ID
computation (and therefore signing). -/
theorem C10_pubkey_check_hash_gap (m : HashModel) (s : String) (b : GoBytes)
    (hdec : DecodeBytes s 32 = .ok b)
    (hbad : m.pkDecompress b = none) :
    check (.eddsaPubkeyV s) = .ok () ∧
    (valueHash m (.eddsaPubkeyV s)).isOk = false ∧
    (computeContentID m [("pk", .eddsaPubkeyV s)]).isOk = false := by
  have hhash : valueHash m (.eddsaPubkeyV s) =
      .error "failed to decompress public key" := by
    simp only [valueHash]
    rw [hdec]
    simp only
    rw [hbad]
  refine ⟨?_, ?_, ?_⟩
  · simp only [check, checkWithNamePrefix]
    rw [hdec]
  · rw [hhash]
    rfl
  · unfold computeContentID
    rw [show List.insertionSort entryLe [("pk", .eddsaPubkeyV s)] =
        [("pk", .eddsaPubkeyV s)] from rfl]
    simp only [entryHashes]
    rw [hhash]
    rfl

/-- C10, witness: the all-zero 32-byte payload (64 hex characters)
decodes, and a decompression model that rejects it exhibits the gap. -/
theorem C10_witness :
    check (.eddsaPubkeyV
      "0000000000000000000000000000000000000000000000000000000000000000") =
      .ok () ∧
    (valueHash ⟨fun _ => 0, fun _ => 0, fun _ _ => 0, fun _ => none⟩
      (.eddsaPubkeyV
        "0000000000000000000000000000000000000000000000000000000000000000")).isOk
      = false := by
  have h := C10_pubkey_check_hash_gap
    ⟨fun _ => 0, fun _ => 0, fun _ _ => 0, fun _ => none⟩
    "0000000000000000000000000000000000000000000000000000000000000000"
    (List.replicate 32 0) (by decide) rfl
  exact ⟨h.1, h.2.1⟩

/-! ## C3 — signing fails on a malformed private key -/

/-- C3 (spec-modelled `createPod`): a private-key string that does not
decode to exactly 32 bytes under hex, padded base64 or unpadded base64
makes signing fail with the key-format error, producing no Pod. -/
theorem C3_createPod_key_error (m : HashModel)
    (sign : GoBytes → Int → GoBytes) (derivePub : GoBytes → GoBytes)
    (s : String) (entries : PodEntries)
    (hhex : ∀ b : GoBytes, hexDecode s = .ok b → b.length ≠ 32)
    (hnp : ∀ b : GoBytes, noPadB64Decode s = .ok b → b.length ≠ 32)
    (hstd : ∀ b : GoBytes, stdB64Decode s = .ok b → b.length ≠ 32) :
    ∃ e : String, createPod m sign derivePub s entries =
      .error ("failed to parse private key: " ++ e) := by
  unfold createPod
  cases hdb : DecodeBytes s 32 with
  | error e => exact ⟨e, rfl⟩
  | ok b =>
      exfalso
      obtain ⟨hlen, hsrc⟩ := DecodeBytes_ok s 32 b hdb
      rcases hsrc with h | h | h
      · exact hhex b h hlen
      · exact hnp b h hlen
      · exact hstd b h hlen

/-- C3, witness: the string `"zz"` decodes under no accepted encoding
to 32 bytes (hex rejects it, unpadded base64 yields one byte, padded
base64 rejects the length), so `createPod` fails with the key-format
error. -/
theorem C3_witness :
    ∃ e : String,
      createPod ⟨fun _ => 0, fun _ => 0, fun _ _ => 0, fun _ => none⟩
        (fun _ _ => []) (fun _ => []) "zz" [("a", .nullV)] =
        .error ("failed to parse private key: " ++ e) := by
  apply C3_createPod_key_error
  · intro b hb
    rw [show hexDecode "zz" = .error "invalid hex byte" from rfl] at hb
    cases hb
  · intro b hb
    rw [show noPadB64Decode "zz" = .ok [207] from by decide] at hb
    cases hb
    decide
  · intro b hb
    rw [show stdB64Decode "zz" = .error "illegal base64 data" from by decide] at hb
    cases hb

/-! ## C1 — error discipline of `Verify` -/

/-- C1: when the signature and public key decode and decompress and the
entries hash to a content ID, a failing curve verification
(`ErrVerifyPoseidonFailed`) yields the normal negative result
`(false, nil)`; each earlier failure — signature decode, public-key
decode, content-ID computation, signature decompression, public-key
decompression — yields `false` together with a non-nil error. -/
theorem C1_verify_error_discipline {σ : Type} (m : HashModel)
    (sigDecompress : GoBytes → Option σ)
    (curveVerify : Int → σ → Int × Int → CurveOutcome)
    (p : Pod) :
    (∀ (sb kb : GoBytes) (cid : Int) (sg : σ) (pk : Int × Int),
      DecodeBytes p.signature 64 = .ok sb →
      DecodeBytes p.signerPublicKey 32 = .ok kb →
      computeContentID m p.entries = .ok cid →
      sigDecompress sb = some sg →
      m.pkDecompress kb = some pk →
      curveVerify cid sg pk = .failed →
      verifyPod m sigDecompress curveVerify p = (false, none)) ∧
    ((DecodeBytes p.signature 64).isOk = false →
      (verifyPod m sigDecompress curveVerify p).1 = false ∧
      ((verifyPod m sigDecompress curveVerify p).2).isSome = true) ∧
    (∀ sb : GoBytes, DecodeBytes p.signature 64 = .ok sb →
      (DecodeBytes p.signerPublicKey 32).isOk = false →
      (verifyPod m sigDecompress curveVerify p).1 = false ∧
      ((verifyPod m sigDecompress curveVerify p).2).isSome = true) ∧
    (∀ (sb kb : GoBytes), DecodeBytes p.signature 64 = .ok sb →
      DecodeBytes p.signerPublicKey 32 = .ok kb →
      (computeContentID m p.entries).isOk = false →
      (verifyPod m sigDecompress curveVerify p).1 = false ∧
      ((verifyPod m sigDecompress curveVerify p).2).isSome = true) ∧
    (∀ (sb kb : GoBytes) (cid : Int), DecodeBytes p.signature 64 = .ok sb →
      DecodeBytes p.signerPublicKey 32 = .ok kb →
      computeContentID m p.entries = .ok cid →
      sigDecompress sb = none →
      (verifyPod m sigDecompress curveVerify p).1 = false ∧
      ((verifyPod m sigDecompress curveVerify p).2).isSome = true) ∧
    (∀ (sb kb : GoBytes) (cid : Int) (sg : σ),
      DecodeBytes p.signature 64 = .ok sb →
      DecodeBytes p.signerPublicKey 32 = .ok kb →
      computeContentID m p.entries = .ok cid →
      sigDecompress sb = some sg →
      m.pkDecompress kb = none →
      (verifyPod m sigDecompress curveVerify p).1 = false ∧
      ((verifyPod m sigDecompress curveVerify p).2).isSome = true) := by
  refine ⟨?_, ?_, ?_, ?_, ?_, ?_⟩
  · intro sb kb cid sg pk hsb hkb hcid hsg hpk hcv
    have hl1 := (DecodeBytes_ok _ _ _ hsb).1
    have hl2 := (DecodeBytes_ok _ _ _ hkb).1
    simp [verifyPod, hsb, hkb, hcid, hsg, hpk, hcv, hl1, hl2]
  · intro hbad
    cases hsb : DecodeBytes p.signature 64 with
    | error e => simp [verifyPod, hsb]
    | ok sb => rw [hsb] at hbad; cases hbad
  · intro sb hsb hbad
    cases hkb : DecodeBytes p.signerPublicKey 32 with
    | error e =>
        have hl1 := (DecodeBytes_ok _ _ _ hsb).1
        simp [verifyPod, hsb, hkb, hl1]
    | ok kb => rw [hkb] at hbad; cases hbad
  · intro sb kb hsb hkb hbad
    cases hcid : computeContentID m p.entries with
    | error e =>
        have hl1 := (DecodeBytes_ok _ _ _ hsb).1
        have hl2 := (DecodeBytes_ok _ _ _ hkb).1
        simp [verifyPod, hsb, hkb, hcid, hl1, hl2]
    | ok cid => rw [hcid] at hbad; cases hbad
  · intro sb kb cid hsb hkb hcid hbad
    have hl1 := (DecodeBytes_ok _ _ _ hsb).1
    have hl2 := (DecodeBytes_ok _ _ _ hkb).1
    simp [verifyPod, hsb, hkb, hcid, hbad, hl1, hl2]
  · intro sb kb cid sg hsb hkb hcid hsg hbad
    have hl1 := (DecodeBytes_ok _ _ _ hsb).1
    have hl2 := (DecodeBytes_ok _ _ _ hkb).1
    simp [verifyPod, hsb, hkb, hcid, hsg, hbad, hl1, hl2]

/-- C1, witness: a pod with well-formed hex signature and key strings,
oracles whose curve verification reports the sentinel failure; the
theorem's first conjunct gives `(false, none)`. -/
theorem C1_witness :
    verifyPod (σ := Unit)
      ⟨fun _ => 0, fun _ => 0, fun _ _ => 0, fun _ => some (0, 0)⟩
      (fun _ => some ()) (fun _ _ _ => .failed)
      ⟨[("a", .nullV)],
       String.mk (List.replicate 128 (Char.ofNat 48)),
       String.mk (List.replicate 64 (Char.ofNat 48))⟩ = (false, none) := by
  apply (C1_verify_error_discipline
      ⟨fun _ => 0, fun _ => 0, fun _ _ => 0, fun _ => some (0, 0)⟩
      (fun _ => some ()) (fun _ _ _ => CurveOutcome.failed) _).1
      (List.replicate 64 0) (List.replicate 32 0) 0 () (0, 0)
  · decide
  · decide
  · rw [show computeContentID
        ⟨fun _ => 0, fun _ => 0, fun _ _ => 0, fun _ => some (0, 0)⟩
        [("a", PodValue.nullV)] = .ok 0 from ?_]
    unfold computeContentID
    rw [show List.insertionSort entryLe [("a", PodValue.nullV)] =
        [("a", PodValue.nullV)] from rfl]
    rw [show entryHashes
        ⟨fun _ => 0, fun _ => 0, fun _ _ => 0, fun _ => some (0, 0)⟩
        [("a", PodValue.nullV)] = .ok [0, nullHash] from rfl]
    simp [leanPoseidonIMT_pair]
  · rfl
  · rfl
  · rfl

/-! ## C8 — date unmarshalling -/

/-- C8, counterexample.  The claim asserts every accepted timestamp is
normalized in the resulting value by truncation to millisecond
precision; but `UnmarshalJSON` stores the parsed time verbatim — for
the sub-millisecond input below the stored value keeps its full
nanosecond precision instead of the truncated value. -/
theorem C8_counterexample :
    unmarshalValue goParseRFC3339
      (.objJ [("date", .strJ "2025-01-01T00:00:00.123456789Z")]) =
      .ok (.dateV 1735689600123456789) ∧
    truncToMilli 1735689600123456789 = 1735689600123000000 ∧
    (1735689600123456789 : Int) ≠ 1735689600123000000 := by
  refine ⟨by decide, by decide, by decide⟩

/-- Single-key tagged objects route through `unmarshalTagged` and then
`Check()`. -/
theorem unmarshalValue_single (parseDate : String → Option Int)
    (k : String) (payload : Json) :
    unmarshalValue parseDate (.objJ [(k, payload)]) =
      match unmarshalTagged parseDate k payload with
      | .error e => .error e
      | .ok v =>
          match check v with
          | .ok _ => .ok v
          | .error e => .error e := rfl

/-- C8, amended: a `{"date": ...}` payload whose string is not
`Z`-suffixed is rejected as a format error; an accepted timestamp is
stored in the resulting `PodValue` exactly as parsed (in UTC, since
only `Z`-suffixed strings are accepted) — without millisecond
truncation, which instead happens in the constructor
`NewPodDateValue`. -/
theorem C8_date_unmarshal (parseDate : String → Option Int) (s : String) :
    (endsWithZ s = false →
      (unmarshalValue parseDate (.objJ [("date", .strJ s)])).isOk = false) ∧
    (∀ t : Int, endsWithZ s = true → parseDate s = some t →
      podDateMinMillis * 1000000 ≤ t → t ≤ podDateMaxMillis * 1000000 →
      unmarshalValue parseDate (.objJ [("date", .strJ s)]) = .ok (.dateV t)) ∧
    (∀ t : Int, podDateMinMillis * 1000000 ≤ t →
      t ≤ podDateMaxMillis * 1000000 →
      NewPodDateValue t = .ok (.dateV (truncToMilli t))) := by
  refine ⟨fun hz => ?_, fun t hz hp h1 h2 => ?_, fun t h1 h2 => ?_⟩
  · have htag : unmarshalTagged parseDate "date" (.strJ s) =
        .error "date must be encoded in UTC" := by
      simp only [unmarshalTagged]
      rw [hz]
      rfl
    rw [unmarshalValue_single, htag]
    rfl
  · have htag : unmarshalTagged parseDate "date" (.strJ s) = .ok (.dateV t) := by
      simp only [unmarshalTagged]
      rw [hz]
      simp [hp]
    have hck : check (.dateV t) = .ok () := by
      simp only [check, checkWithNamePrefix, checkTimeBounds,
        podDateMinMillis, podDateMaxMillis] at h1 h2 ⊢
      split
      · exfalso; omega
      · split
        · exfalso; omega
        · rfl
    rw [unmarshalValue_single, htag]
    simp [hck]
  · have hdiv : t.fdiv 1000000 = t / 1000000 := Int.fdiv_eq_ediv t (by omega)
    have hfacts := Int.ediv_add_emod t 1000000
    have hnn : 0 ≤ t % 1000000 := Int.emod_nonneg t (by norm_num)
    have hlt : t % 1000000 < 1000000 := Int.emod_lt_of_pos t (by norm_num)
    have htr : truncToMilli t = t / 1000000 * 1000000 := by
      rw [truncToMilli, hdiv]
    simp only [podDateMinMillis, podDateMaxMillis] at h1 h2
    have hck : check (.dateV (truncToMilli t)) = .ok () := by
      simp only [check, checkWithNamePrefix, checkTimeBounds,
        podDateMinMillis, podDateMaxMillis, htr]
      split
      · exfalso; omega
      · split
        · exfalso; omega
        · rfl
    have hbounds : checkTimeBounds "" t (podDateMinMillis * 1000000)
        (podDateMaxMillis * 1000000) = .ok () := by
      simp only [checkTimeBounds, podDateMinMillis, podDateMaxMillis]
      split
      · exfalso; omega
      · split
        · exfalso; omega
        · rfl
    unfold NewPodDateValue
    rw [hbounds]
    simp [hck]

/-- C8, witness for the amended theorem: a non-`Z` timestamp is
rejected, a `Z`-suffixed one is stored as parsed, and the constructor
truncates. -/
theorem C8_witness :
    (unmarshalValue goParseRFC3339
      (.objJ [("date", .strJ "2025-06-30T23:44:58.123-08:00")])).isOk
      = false ∧
    unmarshalValue goParseRFC3339
      (.objJ [("date", .strJ "2025-01-01T00:00:00Z")]) =
      .ok (.dateV 1735689600000000000) ∧
    NewPodDateValue 1735689600123456789 =
      .ok (.dateV (truncToMilli 1735689600123456789)) := by
  have h1 := C8_date_unmarshal goParseRFC3339 "2025-06-30T23:44:58.123-08:00"
  have h2 := C8_date_unmarshal goParseRFC3339 "2025-01-01T00:00:00Z"
  refine ⟨h1.1 (by decide), ?_, h2.2.2 1735689600123456789 (by decide) (by decide)⟩
  exact h2.2.1 1735689600000000000 (by decide) (by decide) (by decide) (by decide)

/-! ## C4 — determinism / order-independence of the content ID -/

/-- Two permutations of the same entries that are both sorted by key
coincide when the keys are distinct. -/
theorem sortedKeyUnique : ∀ (u v : PodEntries), u.Perm v →
    u.Sorted entryLe → v.Sorted entryLe →
    (u.map Prod.fst).Nodup → u = v := by
  intro u
  induction u with
  | nil =>
      intro v hperm _ _ _
      exact (hperm.nil_eq).symm.symm ▸ rfl
  | cons a u2 ih =>
      intro v hperm hu hv hnd
      cases v with
      | nil => exact absurd hperm.symm.nil_eq (by simp)
      | cons b v2 =>
          have hab : a = b := by
            by_contra hne
            have hav : a ∈ b :: v2 := hperm.subset (List.mem_cons_self a u2)
            have hbu : b ∈ a :: u2 := hperm.symm.subset (List.mem_cons_self b v2)
            have hav2 : a ∈ v2 := by
              rcases List.mem_cons.mp hav with h | h
              · exact absurd h hne
              · exact h
            have hbu2 : b ∈ u2 := by
              rcases List.mem_cons.mp hbu with h | h
              · exact absurd h.symm hne
              · exact h
            have h1 : keyLe a.1 b.1 = true := (List.sorted_cons.mp hu).1 b hbu2
            have h2 : keyLe b.1 a.1 = true := (List.sorted_cons.mp hv).1 a hav2
            have hkey : a.1 = b.1 := keyLe_antisymm a.1 b.1 h1 h2
            have : a.1 ∈ u2.map Prod.fst := by
              rw [hkey]
              exact List.mem_map_of_mem Prod.fst hbu2
            exact (List.nodup_cons.mp hnd).1 this
          subst hab
          have htail := hperm.cons_inv
          rw [ih v2 htail (List.sorted_cons.mp hu).2 (List.sorted_cons.mp hv).2
            (List.nodup_cons.mp hnd).2]

/-- C4: `computeContentID` is independent of how the entries map is
enumerated — any two enumerations of the same name-to-value mapping
(permutations with distinct names) yield the same field element,
because the entries are sorted by name before hashing. -/
theorem C4_contentID_deterministic (m : HashModel) (l1 l2 : PodEntries)
    (hperm : l1.Perm l2) (hnd : (l1.map Prod.fst).Nodup) :
    computeContentID m l1 = computeContentID m l2 := by
  haveI : IsTotal (String × PodValue) entryLe :=
    ⟨fun a b => charListLe_total a.1.data b.1.data⟩
  haveI : IsTrans (String × PodValue) entryLe :=
    ⟨fun a b c hab hbc => charListLe_trans a.1.data b.1.data c.1.data hab hbc⟩
  have hs : List.insertionSort entryLe l1 = List.insertionSort entryLe l2 := by
    apply sortedKeyUnique
    · exact ((List.perm_insertionSort _ l1).trans hperm).trans
        (List.perm_insertionSort _ l2).symm
    · exact List.sorted_insertionSort _ l1
    · exact List.sorted_insertionSort _ l2
    · exact ((List.perm_insertionSort _ l1).map Prod.fst).nodup_iff.mpr hnd
  unfold computeContentID
  rw [hs]

/-- C4, witness: the two enumeration orders of a concrete two-entry
map hash to the same content ID. -/
theorem C4_witness :
    computeContentID ⟨fun _ => 0, fun _ => 0, fun _ _ => 0, fun _ => none⟩
      [("a", .nullV), ("b", .booleanV true)] =
    computeContentID ⟨fun _ => 0, fun _ => 0, fun _ _ => 0, fun _ => none⟩
      [("b", .booleanV true), ("a", .nullV)] := by
  apply C4_contentID_deterministic
  · decide
  · decide

/-! ## A concrete model of the canonical date formatter

`TimeVal.UTC().Format("2006-01-02T15:04:05.000Z")` on a
whole-millisecond instant; used to instantiate the abstract formatter
at concrete inputs. -/

/-- Civil date from days since 1970-01-01 (standard civil-calendar
arithmetic, the inverse of `daysFromCivil`). -/
def civilFromDays (days : Int) : Int × Nat × Nat :=
  let z := days + 719468
  let era := z.fdiv 146097
  let doe := (z - era * 146097).toNat
  let yoe := (doe - doe / 1460 + doe / 36524 - doe / 146096) / 365
  let doy := doe - (365 * yoe + yoe / 4 - yoe / 100)
  let mp := (5 * doy + 2) / 153
  let d := doy - (153 * mp + 2) / 5 + 1
  let mo := if mp < 10 then mp + 3 else mp - 9
  (era * 400 + yoe + (if mo ≤ 2 then 1 else 0), mo, d)

/-- A decimal numeral left-padded with zeros to a given width. -/
def padNat (width n : Nat) : List Char :=
  let ds := (natToDecString n).data
  List.replicate (width - ds.length) '0' ++ ds

/-- Model of Go's `Format` with the layout `2006-01-02T15:04:05.000Z`
on a whole-millisecond UTC instant, given in milliseconds since the
epoch (four-digit years). -/
def goFormatRFC3339Milli (ms : Int) : String :=
  let totalSec := ms.fdiv 1000
  let milli := (ms - totalSec * 1000).toNat
  let days := totalSec.fdiv 86400
  let secOfDay := (totalSec - days * 86400).toNat
  let ymd := civilFromDays days
  ⟨padNat 4 ymd.1.toNat ++ ('-' :: padNat 2 ymd.2.1) ++ ('-' :: padNat 2 ymd.2.2) ++
   ('T' :: padNat 2 (secOfDay / 3600)) ++ (':' :: padNat 2 (secOfDay % 3600 / 60)) ++
   (':' :: padNat 2 (secOfDay % 60)) ++ ('.' :: padNat 3 milli) ++ ['Z']⟩

/-- Normalization performed by one encode/decode pass: dates lose their
sub-millisecond component; every other kind is untouched. -/
def normalizeValue : PodValue → PodValue
  | .dateV t => .dateV (truncToMilli t)
  | v => v

/-- Entry-wise normalization. -/
def normalizeEntries (entries : PodEntries) : PodEntries :=
  entries.map fun e => (e.1, normalizeValue e.2)

/-! ## Value-level encode/decode round trip -/

/-- `checkWithNamePrefix` succeeds independently of the message
prefix. -/
theorem checkWithNamePrefix_ok (pre : String) (v : PodValue)
    (h : check v = .ok ()) : checkWithNamePrefix pre v = .ok () := by
  cases v with
  | nullV => rfl
  | stringV s => rfl
  | bytesV b => rfl
  | booleanV b => rfl
  | cryptographicV n =>
      simp only [check, checkWithNamePrefix, checkNumericBounds] at h ⊢
      split at h
      · cases h
      · split at h
        · cases h
        · rename_i h1 h2
          rw [if_neg h1, if_neg h2]
  | intV n =>
      simp only [check, checkWithNamePrefix, checkNumericBounds] at h ⊢
      split at h
      · cases h
      · split at h
        · cases h
        · rename_i h1 h2
          rw [if_neg h1, if_neg h2]
  | eddsaPubkeyV s =>
      simp only [check, checkWithNamePrefix] at h ⊢
      cases hd : DecodeBytes s 32 with
      | ok b => rfl
      | error e => rw [hd] at h; cases h
  | dateV t =>
      simp only [check, checkWithNamePrefix, checkTimeBounds] at h ⊢
      split at h
      · cases h
      · split at h
        · cases h
        · rename_i h1 h2
          rw [if_neg h1, if_neg h2]

/-- The converse: success with any prefix gives success with none. -/
theorem check_of_checkWithNamePrefix (pre : String) (v : PodValue)
    (h : checkWithNamePrefix pre v = .ok ()) : check v = .ok () := by
  cases v with
  | nullV => rfl
  | stringV s => rfl
  | bytesV b => rfl
  | booleanV b => rfl
  | cryptographicV n =>
      simp only [check, checkWithNamePrefix, checkNumericBounds] at h ⊢
      split at h
      · cases h
      · split at h
        · cases h
        · rename_i h1 h2
          rw [if_neg h1, if_neg h2]
  | intV n =>
      simp only [check, checkWithNamePrefix, checkNumericBounds] at h ⊢
      split at h
      · cases h
      · split at h
        · cases h
        · rename_i h1 h2
          rw [if_neg h1, if_neg h2]
  | eddsaPubkeyV s =>
      simp only [check, checkWithNamePrefix] at h ⊢
      cases hd : DecodeBytes s 32 with
      | ok b => rfl
      | error e => rw [hd] at h; cases h
  | dateV t =>
      simp only [check, checkWithNamePrefix, checkTimeBounds] at h ⊢
      split at h
      · cases h
      · split at h
        · cases h
        · rename_i h1 h2
          rw [if_neg h1, if_neg h2]

/-- A date value that passes `Check()` still does after millisecond
truncation. -/
theorem check_dateV_trunc (t : Int) (h : check (.dateV t) = .ok ()) :
    check (.dateV (truncToMilli t)) = .ok () := by
  have hdiv : t.fdiv 1000000 = t / 1000000 := Int.fdiv_eq_ediv t (by omega)
  have hfacts := Int.ediv_add_emod t 1000000
  have hnn : 0 ≤ t % 1000000 := Int.emod_nonneg t (by norm_num)
  have hlt : t % 1000000 < 1000000 := Int.emod_lt_of_pos t (by norm_num)
  have htr : truncToMilli t = t / 1000000 * 1000000 := by
    rw [truncToMilli, hdiv]
  simp only [check, checkWithNamePrefix, checkTimeBounds,
    podDateMinMillis, podDateMaxMillis, htr] at h ⊢
  split at h
  · cases h
  · split at h
    · cases h
    · rename_i h1 h2
      split
      · rename_i hc; exfalso; omega
      · split
        · rename_i hc; exfalso; omega
        · rfl

/-- One encode/decode pass over a single valid value returns the value
with its date (if any) truncated to a whole millisecond.  The two
`hdate` facts model Go's RFC3339 formatter/parser pair: the canonical
layout ends in `Z` and parses back to the formatted instant. -/
theorem unmarshal_marshal_value (fmtDate : Int → String)
    (parseDate : String → Option Int) (v : PodValue)
    (hck : check v = .ok ())
    (hbytes : ∀ b : GoBytes, v = .bytesV b → bytesWF b)
    (hdate : ∀ t : Int, v = .dateV t →
      endsWithZ (fmtDate (millisOfTime t)) = true ∧
      parseDate (fmtDate (millisOfTime t)) = some (millisOfTime t * 1000000)) :
    unmarshalValue parseDate (marshalValue fmtDate v) =
      .ok (normalizeValue v) := by
  cases v with
  | nullV => rfl
  | booleanV b => rfl
  | stringV s => rfl
  | eddsaPubkeyV s =>
      rw [show marshalValue fmtDate (.eddsaPubkeyV s) =
        .objJ [("eddsa_pubkey", .strJ s)] from rfl]
      rw [unmarshalValue_single]
      rw [show unmarshalTagged parseDate "eddsa_pubkey" (.strJ s) =
        .ok (.eddsaPubkeyV s) from rfl]
      simp [hck, normalizeValue]
  | bytesV b =>
      have hwf := hbytes b rfl
      rw [show marshalValue fmtDate (.bytesV b) =
        .objJ [("bytes", .strJ (noPadB64EncodeStr b))] from rfl]
      rw [unmarshalValue_single]
      have htag : unmarshalTagged parseDate "bytes"
          (.strJ (noPadB64EncodeStr b)) = .ok (.bytesV b) := by
        simp only [unmarshalTagged]
        rw [DecodeBase64Bytes_encode b hwf]
      rw [htag]
      simp [hck, normalizeValue]
  | dateV t =>
      obtain ⟨hz, hp⟩ := hdate t rfl
      rw [show marshalValue fmtDate (.dateV t) =
        .objJ [("date", .strJ (fmtDate (millisOfTime t)))] from rfl]
      rw [unmarshalValue_single]
      have htag : unmarshalTagged parseDate "date"
          (.strJ (fmtDate (millisOfTime t))) =
          .ok (.dateV (millisOfTime t * 1000000)) := by
        simp only [unmarshalTagged]
        rw [hz]
        simp [hp]
      rw [htag]
      have hcknorm : check (.dateV (millisOfTime t * 1000000)) = .ok () :=
        check_dateV_trunc t hck
      have hnorm : normalizeValue (.dateV t) =
          .dateV (millisOfTime t * 1000000) := rfl
      rw [hnorm]
      simp [hcknorm]
  | intV n =>
      by_cases hf : fitsInSafeJSRange n = true
      · rw [show marshalValue fmtDate (.intV n) =
          if fitsInSafeJSRange n then .numJ n
          else .objJ [("int", .strJ (formatBigIntToString n))] from rfl,
          if_pos hf]
        have hrange : ¬(n < -9223372036854775808 ∨ 9223372036854775807 < n) := by
          simp only [fitsInSafeJSRange, decide_eq_true_eq] at hf
          omega
        show (match (if n < -9223372036854775808 ∨ 9223372036854775807 < n then
            (Except.error "got a floating (non-integer) JSON number" :
              Except String PodValue)
          else Except.ok (PodValue.intV n)) with
          | Except.error e => (Except.error e : Except String PodValue)
          | Except.ok v =>
              match check v with
              | Except.ok _ => Except.ok v
              | Except.error e => Except.error e) =
          Except.ok (normalizeValue (PodValue.intV n))
        rw [if_neg hrange]
        simp [hck, normalizeValue]
      · rw [show marshalValue fmtDate (.intV n) =
          if fitsInSafeJSRange n then .numJ n
          else .objJ [("int", .strJ (formatBigIntToString n))] from rfl,
          if_neg hf]
        rw [unmarshalValue_single]
        have htag : unmarshalTagged parseDate "int"
            (.strJ (formatBigIntToString n)) = .ok (.intV n) := by
          simp only [unmarshalTagged, parseBigIntFromJSON]
          rw [parseBigIntFromString_format n]
        rw [htag]
        simp [hck, normalizeValue]
  | cryptographicV n =>
      by_cases hf : fitsInSafeJSRange n = true
      · rw [show marshalValue fmtDate (.cryptographicV n) =
          if fitsInSafeJSRange n then .objJ [("cryptographic", .numJ n)]
          else .objJ [("cryptographic", .strJ (formatBigIntToString n))] from rfl,
          if_pos hf]
        rw [unmarshalValue_single]
        have hrange : ¬(n < -9223372036854775808 ∨ 9223372036854775807 < n) := by
          simp only [fitsInSafeJSRange, decide_eq_true_eq] at hf
          omega
        have htag : unmarshalTagged parseDate "cryptographic" (.numJ n) =
            .ok (.cryptographicV n) := by
          simp only [unmarshalTagged, parseBigIntFromJSON]
          rw [if_neg hrange]
        rw [htag]
        simp [hck, normalizeValue]
      · rw [show marshalValue fmtDate (.cryptographicV n) =
          if fitsInSafeJSRange n then .objJ [("cryptographic", .numJ n)]
          else .objJ [("cryptographic", .strJ (formatBigIntToString n))] from rfl,
          if_neg hf]
        rw [unmarshalValue_single]
        have htag : unmarshalTagged parseDate "cryptographic"
            (.strJ (formatBigIntToString n)) = .ok (.cryptographicV n) := by
          simp only [unmarshalTagged, parseBigIntFromJSON]
          rw [parseBigIntFromString_format n]
        rw [htag]
        simp [hck, normalizeValue]

/-! ## Entries- and Pod-level round trip -/

/-- `entriesCheck` succeeds exactly when every name and every value
does. -/
theorem entriesCheck_ok_iff : ∀ entries : PodEntries,
    entriesCheck entries = .ok () ↔
      ∀ kv ∈ entries, CheckPodName kv.1 = .ok () ∧ check kv.2 = .ok () := by
  intro entries
  induction entries with
  | nil => simp [entriesCheck]
  | cons hd tl ih =>
      obtain ⟨n, v⟩ := hd
      constructor
      · intro h kv hkv
        simp only [entriesCheck] at h
        cases hn : CheckPodName n with
        | error e => rw [hn] at h; cases h
        | ok u =>
            rw [hn] at h
            cases hv : checkWithNamePrefix (n ++ ": ") v with
            | error e => rw [hv] at h; cases h
            | ok u2 =>
                rw [hv] at h
                rcases List.mem_cons.mp hkv with rfl | hkv2
                · exact ⟨hn, check_of_checkWithNamePrefix _ _ hv⟩
                · exact (ih.mp h) kv hkv2
      · intro h
        have hn := (h (n, v) (List.mem_cons_self _ _)).1
        have hv := checkWithNamePrefix_ok (n ++ ": ") v
          (h (n, v) (List.mem_cons_self _ _)).2
        simp only [entriesCheck]
        rw [hn, hv]
        exact ih.mpr fun kv hkv => h kv (List.mem_cons_of_mem _ hkv)

/-- Decoding the field list produced by marshalling valid entries
yields the normalized entries. -/
theorem unmarshalEntriesFields_marshal (fmtDate : Int → String)
    (parseDate : String → Option Int) :
    ∀ entries : PodEntries,
    (∀ kv ∈ entries, check kv.2 = .ok ()) →
    (∀ kv ∈ entries, ∀ b : GoBytes, kv.2 = .bytesV b → bytesWF b) →
    (∀ kv ∈ entries, ∀ t : Int, kv.2 = .dateV t →
      endsWithZ (fmtDate (millisOfTime t)) = true ∧
      parseDate (fmtDate (millisOfTime t)) = some (millisOfTime t * 1000000)) →
    unmarshalEntriesFields parseDate
        (entries.map fun e => (e.1, marshalValue fmtDate e.2)) =
      .ok (normalizeEntries entries) := by
  intro entries
  induction entries with
  | nil => intro _ _ _; rfl
  | cons hd tl ih =>
      intro hck hbytes hdate
      obtain ⟨n, v⟩ := hd
      have hv := unmarshal_marshal_value fmtDate parseDate v
        (hck (n, v) (List.mem_cons_self _ _))
        (fun b hb => hbytes (n, v) (List.mem_cons_self _ _) b hb)
        (fun t ht => hdate (n, v) (List.mem_cons_self _ _) t ht)
      have htl := ih
        (fun kv hkv => hck kv (List.mem_cons_of_mem _ hkv))
        (fun kv hkv => hbytes kv (List.mem_cons_of_mem _ hkv))
        (fun kv hkv => hdate kv (List.mem_cons_of_mem _ hkv))
      simp only [List.map_cons, unmarshalEntriesFields]
      rw [hv, htl]
      rfl

/-- Normalization keeps every value valid. -/
theorem check_normalizeValue (v : PodValue) (h : check v = .ok ()) :
    check (normalizeValue v) = .ok () := by
  cases v with
  | dateV t => exact check_dateV_trunc t h
  | nullV => exact h
  | stringV s => exact h
  | bytesV b => exact h
  | cryptographicV n => exact h
  | intV n => exact h
  | booleanV b => exact h
  | eddsaPubkeyV s => exact h

/-- Normalization keeps the entries sorted (it only rewrites values). -/
theorem sorted_normalizeEntries (entries : PodEntries)
    (h : entries.Sorted entryLe) :
    (normalizeEntries entries).Sorted entryLe := by
  unfold normalizeEntries
  exact (List.pairwise_map).mpr h

/-- `PodEntries.UnmarshalJSON ∘ json.Marshal` on valid, sorted entries
returns the normalized entries. -/
theorem unmarshal_marshal_entries (fmtDate : Int → String)
    (parseDate : String → Option Int) (entries : PodEntries)
    (hsorted : entries.Sorted entryLe)
    (hck : entriesCheck entries = .ok ())
    (hbytes : ∀ kv ∈ entries, ∀ b : GoBytes, kv.2 = .bytesV b → bytesWF b)
    (hdate : ∀ kv ∈ entries, ∀ t : Int, kv.2 = .dateV t →
      endsWithZ (fmtDate (millisOfTime t)) = true ∧
      parseDate (fmtDate (millisOfTime t)) = some (millisOfTime t * 1000000)) :
    unmarshalEntries parseDate (marshalEntries fmtDate entries) =
      .ok (normalizeEntries entries) := by
  have hvals := entriesCheck_ok_iff entries |>.mp hck
  have hfields := unmarshalEntriesFields_marshal fmtDate parseDate entries
    (fun kv hkv => (hvals kv hkv).2) hbytes hdate
  have hobj : ∀ fields : List (String × Json),
      unmarshalEntries parseDate (.objJ fields) =
        match unmarshalEntriesFields parseDate fields with
        | .error e => .error e
        | .ok es =>
            match entriesCheck es with
            | .ok _ => .ok es
            | .error e => .error e := fun _ => rfl
  have hcknorm : entriesCheck (normalizeEntries entries) = .ok () := by
    apply (entriesCheck_ok_iff _).mpr
    intro kv hkv
    obtain ⟨kv0, hkv0, hkveq⟩ := List.mem_map.mp hkv
    have h0 := hvals kv0 hkv0
    rw [← hkveq]
    exact ⟨h0.1, check_normalizeValue kv0.2 h0.2⟩
  unfold marshalEntries
  rw [List.Sorted.insertionSort_eq hsorted, hobj, hfields]
  simp [hcknorm]

/-- Millisecond-aligned entries normalize to themselves. -/
theorem normalizeEntries_eq_self (entries : PodEntries)
    (hms : ∀ kv ∈ entries, ∀ t : Int, kv.2 = .dateV t → t % 1000000 = 0) :
    normalizeEntries entries = entries := by
  unfold normalizeEntries
  induction entries with
  | nil => rfl
  | cons hd tl ih =>
      obtain ⟨n, v⟩ := hd
      have hv : normalizeValue v = v := by
        cases v with
        | dateV t =>
            have hz := hms (n, .dateV t) (List.mem_cons_self _ _) t rfl
            have hdvd : (1000000 : Int) ∣ t := Int.dvd_of_emod_eq_zero hz
            show PodValue.dateV (truncToMilli t) = .dateV t
            rw [truncToMilli, Int.fdiv_eq_ediv t (by omega),
              Int.ediv_mul_cancel hdvd]
        | nullV => rfl
        | stringV s => rfl
        | bytesV b => rfl
        | cryptographicV n2 => rfl
        | intV n2 => rfl
        | booleanV b => rfl
        | eddsaPubkeyV s => rfl
      simp only [List.map_cons, hv]
      rw [ih (fun kv hkv => hms kv (List.mem_cons_of_mem _ hkv))]

/-- Re-marshalling a normalized value gives the same JSON (the format
layout already truncated to milliseconds). -/
theorem marshalValue_normalize (fmtDate : Int → String) (v : PodValue) :
    marshalValue fmtDate (normalizeValue v) = marshalValue fmtDate v := by
  cases v with
  | dateV t =>
      show Json.objJ [("date", .strJ (fmtDate (millisOfTime (truncToMilli t))))] =
        .objJ [("date", .strJ (fmtDate (millisOfTime t)))]
      have : millisOfTime (truncToMilli t) = millisOfTime t := by
        unfold millisOfTime truncToMilli
        rw [Int.fdiv_eq_ediv t (by omega),
          Int.fdiv_eq_ediv (t / 1000000 * 1000000) (by omega),
          Int.mul_ediv_cancel _ (by norm_num)]
      rw [this]
  | nullV => rfl
  | stringV s => rfl
  | bytesV b => rfl
  | cryptographicV n => rfl
  | intV n => rfl
  | booleanV b => rfl
  | eddsaPubkeyV s => rfl

/-- Re-marshalling normalized entries gives the same JSON document. -/
theorem marshalEntries_normalize (fmtDate : Int → String)
    (entries : PodEntries)
    (hsorted : entries.Sorted entryLe) :
    marshalEntries fmtDate (normalizeEntries entries) =
      marshalEntries fmtDate entries := by
  unfold marshalEntries
  rw [List.Sorted.insertionSort_eq hsorted,
    List.Sorted.insertionSort_eq (sorted_normalizeEntries entries hsorted)]
  unfold normalizeEntries
  rw [List.map_map]
  congr 1
  apply List.map_congr_left
  intro e _
  show (e.1, marshalValue fmtDate (normalizeValue e.2)) =
    (e.1, marshalValue fmtDate e.2)
  rw [marshalValue_normalize]

/-! ## C9 — the encoding round trip -/

/-- `unmarshalPod` on the canonical three-field document. -/
theorem unmarshalPod_fields (parseDate : String → Option Int)
    (ej : Json) (sig pk : String) :
    unmarshalPod parseDate (.objJ [("entries", ej), ("signature", .strJ sig),
      ("signerPublicKey", .strJ pk)]) =
      match unmarshalEntries parseDate ej with
      | .ok es => .ok ⟨es, sig, pk⟩
      | .error e => .error e := rfl

/-- C9, amended: decoding an encoded valid Pod yields the Pod with its
date values truncated to whole milliseconds (so a Pod whose dates are
already millisecond-aligned — as every constructor-produced or decoded
Pod is — round-trips to itself), and re-encoding the decoded Pod
yields the identical JSON document (hence identical bytes, since the
text layer serializes equal documents equally).  `fmtDate`/`parseDate`
model Go's RFC3339 formatter and parser; the hypotheses state their
inverse property at the date values of this Pod (true of the Go pair
for four-digit years).  The signature and public-key strings pass
through the codec verbatim. -/
theorem C9_roundtrip (fmtDate : Int → String)
    (parseDate : String → Option Int) (p : Pod)
    (hsorted : p.entries.Sorted entryLe)
    (hck : entriesCheck p.entries = .ok ())
    (hbytes : ∀ kv ∈ p.entries, ∀ b : GoBytes, kv.2 = .bytesV b → bytesWF b)
    (hdate : ∀ kv ∈ p.entries, ∀ t : Int, kv.2 = .dateV t →
      endsWithZ (fmtDate (millisOfTime t)) = true ∧
      parseDate (fmtDate (millisOfTime t)) = some (millisOfTime t * 1000000)) :
    unmarshalPod parseDate (marshalPod fmtDate p) =
      .ok ⟨normalizeEntries p.entries, p.signature, p.signerPublicKey⟩ ∧
    ((∀ kv ∈ p.entries, ∀ t : Int, kv.2 = .dateV t → t % 1000000 = 0) →
      unmarshalPod parseDate (marshalPod fmtDate p) = .ok p) ∧
    marshalPod fmtDate
        ⟨normalizeEntries p.entries, p.signature, p.signerPublicKey⟩ =
      marshalPod fmtDate p := by
  have hent := unmarshal_marshal_entries fmtDate parseDate p.entries
    hsorted hck hbytes hdate
  have hdec : unmarshalPod parseDate (marshalPod fmtDate p) =
      .ok ⟨normalizeEntries p.entries, p.signature, p.signerPublicKey⟩ := by
    show unmarshalPod parseDate
      (.objJ [("entries", marshalEntries fmtDate p.entries),
        ("signature", .strJ p.signature),
        ("signerPublicKey", .strJ p.signerPublicKey)]) = _
    rw [unmarshalPod_fields, hent]
  refine ⟨hdec, fun hms => ?_, ?_⟩
  · rw [hdec, normalizeEntries_eq_self p.entries hms]
  · show Json.objJ [("entries", marshalEntries fmtDate (normalizeEntries p.entries)),
        ("signature", .strJ p.signature),
        ("signerPublicKey", .strJ p.signerPublicKey)] = _
    rw [marshalEntries_normalize fmtDate p.entries hsorted]
    rfl

/-- C9, counterexample.  A Pod whose single date entry carries
sub-millisecond precision passes every `Check()` (and its signature
and key strings decode to 64 and 32 bytes), yet decoding its encoding
yields a different Pod: the canonical date layout only carries three
fractional digits, so the nanosecond component is lost and
`decode(encode(P))` is not value-equal to `P`. -/
theorem C9_counterexample :
    entriesCheck [("d", .dateV 1735689600123456789)] = .ok () ∧
    (DecodeBytes (String.mk (List.replicate 128 (Char.ofNat 48))) 64).isOk
      = true ∧
    (DecodeBytes (String.mk (List.replicate 64 (Char.ofNat 48))) 32).isOk
      = true ∧
    unmarshalPod goParseRFC3339 (marshalPod goFormatRFC3339Milli
      ⟨[("d", .dateV 1735689600123456789)],
       String.mk (List.replicate 128 (Char.ofNat 48)),
       String.mk (List.replicate 64 (Char.ofNat 48))⟩) =
      .ok ⟨[("d", .dateV 1735689600123000000)],
       String.mk (List.replicate 128 (Char.ofNat 48)),
       String.mk (List.replicate 64 (Char.ofNat 48))⟩ ∧
    (PodValue.dateV 1735689600123456789 ≠ .dateV 1735689600123000000) := by
  refine ⟨by decide, by decide, by decide, by decide, by decide⟩

/-- C9, witness for the amended theorem: a three-entry Pod (int, a
millisecond-aligned date, bytes) round-trips to itself under the
concrete RFC3339 formatter/parser models. -/
theorem C9_witness :
    unmarshalPod goParseRFC3339 (marshalPod goFormatRFC3339Milli
      ⟨[("a", .intV 123), ("d", .dateV 1735689600123000000),
        ("k", .bytesV [1, 2, 3])], "sig", "pk"⟩) =
      .ok ⟨[("a", .intV 123), ("d", .dateV 1735689600123000000),
        ("k", .bytesV [1, 2, 3])], "sig", "pk"⟩ := by
  have h := C9_roundtrip goFormatRFC3339Milli goParseRFC3339
    ⟨[("a", .intV 123), ("d", .dateV 1735689600123000000),
      ("k", .bytesV [1, 2, 3])], "sig", "pk"⟩
    (by decide) (by decide)
    (by
      intro kv hkv b hb
      simp only [List.mem_cons, List.not_mem_nil, or_false] at hkv
      rcases hkv with rfl | rfl | rfl
      · exact PodValue.noConfusion hb
      · exact PodValue.noConfusion hb
      · injection hb with hb2
        subst hb2
        decide)
    (by
      intro kv hkv t ht
      simp only [List.mem_cons, List.not_mem_nil, or_false] at hkv
      rcases hkv with rfl | rfl | rfl
      · exact PodValue.noConfusion ht
      · injection ht with ht2
        subst ht2
        exact ⟨by decide, by decide⟩
      · exact PodValue.noConfusion ht)
  exact h.2.1 (by
    intro kv hkv t ht
    simp only [List.mem_cons, List.not_mem_nil, or_false] at hkv
    rcases hkv with rfl | rfl | rfl
    · exact PodValue.noConfusion ht
    · injection ht with ht2
      subst ht2
      decide
    · exact PodValue.noConfusion ht)

end Pod
